import Mathlib

/-!
Shallow embedding of the free-block-engine core (blockEngine.js: classes
Block and BlockEngine; blockRenderer.js: BlockRenderer.getConnectionPoint).

Modelling conventions:
* JS `Map` objects (a block's `links`, the engine's `blocks`) are embedded as
  insertion-ordered association lists with the exact `Map.set` / `Map.delete`
  semantics (set on an existing key updates in place, otherwise appends).
* JS numbers are embedded as rationals (ℚ); `Math.round` is the
  round-half-toward-positive-infinity function on ℚ.
* Wall-clock timestamps (`new Date().toISOString()`) are embedded as a `now :
  Nat` argument threaded through every mutating operation.
* `generateId` (Date.now + randomness) is embedded as an explicit `id`
  argument to `createBlock`.
* The event system is embedded as an append-only event log on the engine;
  event payloads are projected to the ids they carry.
-/

/-- Metadata stored with each directed link: the link type string and the
createdAt timestamp; the timestamp is optional because importFromJSON copies
a possibly-absent createdAt field verbatim. -/
structure LinkMeta where
  type : String
  createdAt : Option Nat
  deriving DecidableEq, Repr

structure Pos where
  x : ℚ
  y : ℚ
  deriving DecidableEq, Repr

structure Size where
  width : ℚ
  height : ℚ
  deriving DecidableEq, Repr

structure Metadata where
  createdAt : Nat
  updatedAt : Nat
  deriving DecidableEq, Repr

/-- JS Map.get embedded on an association list. -/
def mapGet (l : List (String × LinkMeta)) (k : String) : Option LinkMeta :=
  (l.find? (fun p => p.1 == k)).map (·.2)

/-- JS Map.set embedded on an association list: update in place when the key
is present, append otherwise. -/
def mapSet (l : List (String × LinkMeta)) (k : String) (v : LinkMeta) :
    List (String × LinkMeta) :=
  if l.any (fun p => p.1 == k) then
    l.map (fun p => if p.1 == k then (k, v) else p)
  else
    l ++ [(k, v)]

/-- JS Map.delete embedded on an association list. -/
def mapDelete (l : List (String × LinkMeta)) (k : String) :
    List (String × LinkMeta) :=
  l.filter (fun p => !(p.1 == k))

/-- The Block class: content node with its own outgoing-link table. -/
structure Block where
  id : String
  content : String
  type : String
  links : List (String × LinkMeta)
  position : Pos
  size : Size
  metadata : Metadata
  deriving DecidableEq, Repr

/-- Block constructor: `new Block(id, content, type)`. -/
def Block.mk0 (id : String) (content : String := "") (type : String := "default")
    (now : Nat := 0) : Block :=
  { id := id, content := content, type := type, links := [],
    position := ⟨0, 0⟩, size := ⟨250, 250⟩,
    metadata := ⟨now, now⟩ }

def Block.setContent (b : Block) (content : String) (now : Nat) : Block :=
  { b with content := content, metadata := { b.metadata with updatedAt := now } }

def Block.setPosition (b : Block) (x y : ℚ) (now : Nat) : Block :=
  { b with position := ⟨x, y⟩, metadata := { b.metadata with updatedAt := now } }

def Block.setSize (b : Block) (width height : ℚ) (now : Nat) : Block :=
  { b with size := ⟨width, height⟩, metadata := { b.metadata with updatedAt := now } }

def Block.addLink (b : Block) (blockId : String) (linkType : String) (now : Nat) : Block :=
  { b with links := mapSet b.links blockId ⟨linkType, some now⟩,
           metadata := { b.metadata with updatedAt := now } }

def Block.removeLink (b : Block) (blockId : String) (now : Nat) : Block :=
  { b with links := mapDelete b.links blockId,
           metadata := { b.metadata with updatedAt := now } }

def Block.hasLink (b : Block) (blockId : String) : Bool :=
  (mapGet b.links blockId).isSome

def Block.getLinkType (b : Block) (blockId : String) : Option String :=
  (mapGet b.links blockId).map (·.type)

/-- Engine settings (BlockEngine constructor defaults: gridSize 20,
defaultSpacing 300, minBlockWidth 150, minBlockHeight 100). -/
structure Settings where
  gridSize : ℚ
  defaultSpacing : ℚ
  minBlockWidth : ℚ
  minBlockHeight : ℚ
  deriving DecidableEq, Repr

/-- Events published through the engine's synchronous event system; payloads
are projected to the ids and counts they carry. -/
inductive Event where
  | blockCreated (id : String)
  | blockUpdated (id : String)
  | blockMoved (id : String)
  | blockResized (id : String)
  | blockDeleted (id : String)
  | blocksLinked (fromId toId linkType : String)
  | blocksUnlinked (fromId toId : String)
  | blocksImported (count : Nat)
  | blocksArranged (count : Nat)
  deriving DecidableEq, Repr

/-- The BlockEngine class: the blocks Map (insertion-ordered, keyed by block
id), the settings, and the log of published events. -/
structure BlockEngine where
  blocks : List Block
  settings : Settings
  events : List Event
  deriving DecidableEq, Repr

/-- A fresh engine (`new BlockEngine()`). -/
def BlockEngine.init : BlockEngine :=
  { blocks := [], settings := ⟨20, 300, 150, 100⟩, events := [] }

/-- JS `this.blocks.get(id) || null`. -/
def BlockEngine.getBlock (e : BlockEngine) (id : String) : Option Block :=
  e.blocks.find? (fun b => b.id == id)

/-- JS `this.blocks.set(id, block)` where the key is the block's own id. -/
def storeSet (bs : List Block) (b : Block) : List Block :=
  if bs.any (fun c => c.id == b.id) then
    bs.map (fun c => if c.id == b.id then b else c)
  else
    bs ++ [b]

/-- Mutating a block object held in the store, reached through its id (JS
mutates the object in place; aliasing through two lookups of the same id is
reproduced because both rewrites hit the same entry). -/
def modifyBlock (bs : List Block) (id : String) (f : Block → Block) : List Block :=
  bs.map (fun b => if b.id == id then f b else b)

/-- Math.round on ℚ: round half toward positive infinity. -/
def jsRound (q : ℚ) : ℤ := ⌊q + 1/2⌋

/-- Grid snapping as in setBlockPosition:
`Math.round(v / gridSize) * gridSize`. -/
def snap (v g : ℚ) : ℚ := (jsRound (v / g) : ℚ) * g

/-- BlockEngine.getAutoPosition: (50,50) for an empty store, otherwise a scan
for the rightmost block seeded with maxX = 0, maxY = 50, updating only on a
strictly greater x. -/
def BlockEngine.getAutoPosition (e : BlockEngine) : Pos :=
  if e.blocks.isEmpty then ⟨50, 50⟩
  else
    let m := e.blocks.foldl
      (fun acc b => if b.position.x > acc.1 then (b.position.x, b.position.y) else acc)
      ((0 : ℚ), (50 : ℚ))
    ⟨m.1 + e.settings.defaultSpacing, m.2⟩

/-- BlockEngine.createBlock; the generated id is passed explicitly. -/
def BlockEngine.createBlock (e : BlockEngine) (id : String) (content : String)
    (type : String) (position : Option Pos) (size : Option Size) (now : Nat) :
    Block × BlockEngine :=
  let b0 := Block.mk0 id content type now
  let b1 := match position with
    | some p => b0.setPosition p.x p.y now
    | none => let ap := e.getAutoPosition; b0.setPosition ap.x ap.y now
  let b2 := match size with
    | some s => b1.setSize s.width s.height now
    | none => b1
  (b2, { e with blocks := storeSet e.blocks b2,
                events := e.events ++ [Event.blockCreated id] })

/-- BlockEngine.setBlockPosition. -/
def BlockEngine.setBlockPosition (e : BlockEngine) (id : String) (x y : ℚ)
    (snapToGrid : Bool) (now : Nat) : Bool × BlockEngine :=
  match e.getBlock id with
  | none => (false, e)
  | some _ =>
    let x1 := if snapToGrid then snap x e.settings.gridSize else x
    let y1 := if snapToGrid then snap y e.settings.gridSize else y
    (true, { e with blocks := modifyBlock e.blocks id (fun b => b.setPosition x1 y1 now),
                    events := e.events ++ [Event.blockMoved id] })

/-- BlockEngine.setBlockSize (clamps up to the configured minimums). -/
def BlockEngine.setBlockSize (e : BlockEngine) (id : String) (width height : ℚ)
    (now : Nat) : Bool × BlockEngine :=
  match e.getBlock id with
  | none => (false, e)
  | some _ =>
    let w := max width e.settings.minBlockWidth
    let h := max height e.settings.minBlockHeight
    (true, { e with blocks := modifyBlock e.blocks id (fun b => b.setSize w h now),
                    events := e.events ++ [Event.blockResized id] })

/-- BlockEngine.setBlockContent. -/
def BlockEngine.setBlockContent (e : BlockEngine) (id : String) (content : String)
    (now : Nat) : Bool × BlockEngine :=
  match e.getBlock id with
  | none => (false, e)
  | some _ =>
    (true, { e with blocks := modifyBlock e.blocks id (fun b => b.setContent content now),
                    events := e.events ++ [Event.blockUpdated id] })

/-- BlockEngine.linkBlocks: clears both directions between the pair, then
installs the edges the link type prescribes (an unrecognized type installs
nothing), publishes blocksLinked, returns true when both blocks exist. -/
def BlockEngine.linkBlocks (e : BlockEngine) (fromId toId linkType : String)
    (now : Nat) : Bool × BlockEngine :=
  match e.getBlock fromId, e.getBlock toId with
  | some _, some _ =>
    let bs1 := modifyBlock e.blocks fromId (fun b => b.removeLink toId now)
    let bs2 := modifyBlock bs1 toId (fun b => b.removeLink fromId now)
    let bs3 :=
      if linkType = "single" then
        modifyBlock bs2 fromId (fun b => b.addLink toId "single" now)
      else if linkType = "reverse" then
        modifyBlock bs2 toId (fun b => b.addLink fromId "single" now)
      else if linkType = "double" then
        modifyBlock (modifyBlock bs2 fromId (fun b => b.addLink toId "double" now))
          toId (fun b => b.addLink fromId "double" now)
      else bs2
    (true, { e with blocks := bs3,
                    events := e.events ++ [Event.blocksLinked fromId toId linkType] })
  | _, _ => (false, e)

/-- BlockEngine.updateLinkType is an alias for linkBlocks. -/
def BlockEngine.updateLinkType (e : BlockEngine) (fromId toId newLinkType : String)
    (now : Nat) : Bool × BlockEngine :=
  e.linkBlocks fromId toId newLinkType now

/-- The record returned by getLinkInfo. -/
structure LinkInfo where
  type : String
  fromId : String
  toId : String
  deriving DecidableEq, Repr

/-- BlockEngine.getLinkInfo. -/
def BlockEngine.getLinkInfo (e : BlockEngine) (fromId toId : String) :
    Option LinkInfo :=
  match e.getBlock fromId, e.getBlock toId with
  | some fromBlock, some toBlock =>
    let hasForward := fromBlock.hasLink toId
    let hasReverse := toBlock.hasLink fromId
    if hasForward && hasReverse then some ⟨"double", fromId, toId⟩
    else if hasForward then some ⟨"single", fromId, toId⟩
    else if hasReverse then some ⟨"reverse", toId, fromId⟩
    else none
  | _, _ => none

/-- BlockEngine.unlinkBlocks: fails only when both ids are unknown. -/
def BlockEngine.unlinkBlocks (e : BlockEngine) (fromId toId : String) (now : Nat) :
    Bool × BlockEngine :=
  let fb := e.getBlock fromId
  let tb := e.getBlock toId
  if fb.isNone && tb.isNone then (false, e)
  else
    let bs1 := if fb.isSome then modifyBlock e.blocks fromId (fun b => b.removeLink toId now)
               else e.blocks
    let bs2 := if tb.isSome then modifyBlock bs1 toId (fun b => b.removeLink fromId now)
               else bs1
    (true, { e with blocks := bs2,
                    events := e.events ++ [Event.blocksUnlinked fromId toId] })

/-- BlockEngine.deleteBlock: purge every link to the id, then delete the
entry keyed by the id. -/
def BlockEngine.deleteBlock (e : BlockEngine) (id : String) (now : Nat) :
    Bool × BlockEngine :=
  match e.getBlock id with
  | none => (false, e)
  | some _ =>
    let bs1 := e.blocks.map (fun b => if b.hasLink id then b.removeLink id now else b)
    let bs2 := bs1.filter (fun b => !(b.id == id))
    (true, { e with blocks := bs2,
                    events := e.events ++ [Event.blockDeleted id] })

/-- A links-array entry of a parsed import document: either a bare id string
(legacy format) or an object with id, optional type and optional createdAt. -/
inductive JsonLink where
  | str (id : String)
  | obj (id : String) (type : Option String) (createdAt : Option Nat)
  deriving DecidableEq, Repr

/-- A parsed block record of an import document. Optional fields embed the
JS absent-or-falsy checks made on them (constructor default parameters for
content and type, the `||` fallbacks for position and size, the
Array.isArray guard for links). -/
structure JsonBlock where
  id : String
  content : Option String
  type : Option String
  links : Option (List JsonLink)
  position : Option Pos
  size : Option Size
  metadata : Metadata
  deriving DecidableEq, Repr

/-- The blocks field of a parsed document: an array, or a shape on which
`data.blocks.forEach` throws (absent or not an array). -/
inductive BlocksField where
  | missing
  | notArray
  | arr (records : List JsonBlock)
  deriving DecidableEq, Repr

/-- A partial settings object, merged over the current settings with
Object.assign. -/
structure SettingsPatch where
  gridSize : Option ℚ
  defaultSpacing : Option ℚ
  minBlockWidth : Option ℚ
  minBlockHeight : Option ℚ
  deriving DecidableEq, Repr

def applySettingsPatch (s : Settings) (p : Option SettingsPatch) : Settings :=
  match p with
  | none => s
  | some p =>
    { gridSize := p.gridSize.getD s.gridSize,
      defaultSpacing := p.defaultSpacing.getD s.defaultSpacing,
      minBlockWidth := p.minBlockWidth.getD s.minBlockWidth,
      minBlockHeight := p.minBlockHeight.getD s.minBlockHeight }

/-- A parsed import document. -/
structure JsonDoc where
  blocks : BlocksField
  settings : Option SettingsPatch
  exportedAt : Nat
  deriving DecidableEq, Repr

/-- The input to importFromJSON after JSON.parse: either a parse failure
(JSON.parse threw) or a parsed document. -/
inductive ImportInput where
  | parseError
  | parsed (d : JsonDoc)
  deriving DecidableEq, Repr

def Settings.toPatch (s : Settings) : SettingsPatch :=
  ⟨some s.gridSize, some s.defaultSpacing, some s.minBlockWidth, some s.minBlockHeight⟩

/-- Block.toJSON: flatten the links Map to an entry sequence. -/
def Block.toJSON (b : Block) : JsonBlock :=
  { id := b.id, content := some b.content, type := some b.type,
    links := some (b.links.map (fun p => JsonLink.obj p.1 (some p.2.type) p.2.createdAt)),
    position := some b.position, size := some b.size, metadata := b.metadata }

/-- BlockEngine.exportToJSON (the JSON.stringify step is the identity of the
shallow embedding: the exported document is produced already parsed). -/
def BlockEngine.exportToJSON (e : BlockEngine) (now : Nat) : JsonDoc :=
  { blocks := BlocksField.arr (e.blocks.map Block.toJSON),
    settings := some e.settings.toPatch,
    exportedAt := now }

/-- One links-array entry applied to a block's links Map during import: a
bare string becomes a single-typed edge stamped now; an object keeps its
type unless that is absent or falsy (the empty string), and copies its
createdAt verbatim. -/
def importLink (now : Nat) (acc : List (String × LinkMeta)) (l : JsonLink) :
    List (String × LinkMeta) :=
  match l with
  | JsonLink.str id => mapSet acc id ⟨"single", some now⟩
  | JsonLink.obj id t c =>
    mapSet acc id ⟨(match t with
                    | some s => if s = "" then "single" else s
                    | none => "single"), c⟩

/-- One block record rebuilt during import. -/
def importBlock (now : Nat) (bd : JsonBlock) : Block :=
  { id := bd.id,
    content := bd.content.getD "",
    type := bd.type.getD "default",
    links := (bd.links.getD []).foldl (importLink now) [],
    position := bd.position.getD ⟨0, 0⟩,
    size := bd.size.getD ⟨250, 150⟩,
    metadata := bd.metadata }

/-- BlockEngine.importFromJSON. A JSON.parse failure is caught before the
store is touched; a malformed blocks field throws on `.forEach` only after
the store has been cleared and the settings merged, and the catch then
returns false with the store left empty. -/
def BlockEngine.importFromJSON (e : BlockEngine) (input : ImportInput) (now : Nat) :
    Bool × BlockEngine :=
  match input with
  | ImportInput.parseError => (false, e)
  | ImportInput.parsed d =>
    let e1 := { e with blocks := [] }
    let e2 := { e1 with settings := applySettingsPatch e1.settings d.settings }
    match d.blocks with
    | BlocksField.missing => (false, e2)
    | BlocksField.notArray => (false, e2)
    | BlocksField.arr records =>
      let bs := records.foldl (fun acc bd => storeSet acc (importBlock now bd)) []
      (true, { e2 with blocks := bs,
                       events := e2.events ++ [Event.blocksImported records.length] })

/-- An axis-aligned rectangle as read off getBoundingClientRect, given in
container coordinates (the renderer subtracts the container origin and adds
the scroll offset; the model works in that frame directly, container origin
at zero and scroll at zero). -/
structure Rect where
  x : ℚ
  y : ℚ
  w : ℚ
  h : ℚ
  deriving DecidableEq, Repr

/-- Math.sign on ℚ. -/
def jsSign (q : ℚ) : ℚ := if q > 0 then 1 else if q < 0 then -1 else 0

/-- BlockRenderer.getConnectionPoint: the point where the center-to-center
line leaves the source rectangle. -/
def getConnectionPoint (source target : Rect) : ℚ × ℚ :=
  let scx := source.x + source.w / 2
  let scy := source.y + source.h / 2
  let tcx := target.x + target.w / 2
  let tcy := target.y + target.h / 2
  let dx := tcx - scx
  let dy := tcy - scy
  let widthRatio := |dx| / source.w
  let heightRatio := |dy| / source.h
  if widthRatio > heightRatio then
    let sg := jsSign dx
    (scx + sg * (source.w / 2), scy + dy * (sg * (source.w / 2) / dx))
  else
    let sg := jsSign dy
    (scx + dx * (sg * (source.h / 2) / dy), scy + sg * (source.h / 2))

/-! Association-list lemmas for the embedded JS Map semantics. -/

theorem mapGet_nil (k : String) : mapGet [] k = none := rfl

theorem mapGet_cons (p : String × LinkMeta) (l : List (String × LinkMeta)) (k : String) :
    mapGet (p :: l) k = if p.1 = k then some p.2 else mapGet l k := by
  by_cases h : p.1 = k <;> simp [mapGet, List.find?_cons, h]

theorem mapGet_append (l₁ l₂ : List (String × LinkMeta)) (k : String) :
    mapGet (l₁ ++ l₂) k = (mapGet l₁ k).orElse (fun _ => mapGet l₂ k) := by
  induction l₁ with
  | nil => simp [mapGet]
  | cons p l ih =>
    by_cases h : p.1 = k <;> simp [mapGet_cons, h, ih]

theorem mapGet_eq_none_iff (l : List (String × LinkMeta)) (k : String) :
    mapGet l k = none ↔ ∀ p ∈ l, p.1 ≠ k := by
  induction l with
  | nil => simp [mapGet]
  | cons p l ih =>
    by_cases h : p.1 = k <;> simp [mapGet_cons, h, ih]

theorem any_key_iff (l : List (String × LinkMeta)) (k : String) :
    (l.any (fun p => p.1 == k)) = true ↔ (mapGet l k).isSome = true := by
  induction l with
  | nil => simp [mapGet]
  | cons q l ih =>
    by_cases hq : q.1 = k <;> simp [hq, mapGet_cons, ih]

theorem mapGet_overwriteMap_self (l : List (String × LinkMeta)) (k : String)
    (v : LinkMeta) (h : (mapGet l k).isSome) :
    mapGet (l.map (fun p => if p.1 = k then (k, v) else p)) k = some v := by
  induction l with
  | nil => simp [mapGet] at h
  | cons q l ih =>
    simp only [List.map_cons]
    by_cases hq : q.1 = k
    · rw [if_pos hq, mapGet_cons, if_pos (show ((k, v) : String × LinkMeta).1 = k from rfl)]
    · rw [if_neg hq, mapGet_cons, if_neg hq]
      rw [mapGet_cons, if_neg hq] at h
      exact ih h

theorem mapGet_overwriteMap_ne (l : List (String × LinkMeta)) (k k' : String)
    (v : LinkMeta) (h : k' ≠ k) :
    mapGet (l.map (fun p => if p.1 = k then (k, v) else p)) k' = mapGet l k' := by
  induction l with
  | nil => rfl
  | cons q l ih =>
    simp only [List.map_cons]
    by_cases hq : q.1 = k
    · have hk : (k : String) ≠ k' := fun hc => h hc.symm
      have hq' : q.1 ≠ k' := by rw [hq]; exact hk
      rw [if_pos hq, mapGet_cons, mapGet_cons, if_neg hq',
          if_neg (show ¬ (((k, v) : String × LinkMeta).1 = k') from hk)]
      exact ih
    · rw [if_neg hq, mapGet_cons, mapGet_cons]
      by_cases hq' : q.1 = k'
      · rw [if_pos hq', if_pos hq']
      · rw [if_neg hq', if_neg hq']
        exact ih

theorem mapGet_mapSet_self (l : List (String × LinkMeta)) (k : String) (v : LinkMeta) :
    mapGet (mapSet l k v) k = some v := by
  unfold mapSet
  by_cases hany : (l.any (fun p => p.1 == k)) = true
  · rw [if_pos hany]
    simp only [beq_iff_eq]
    exact mapGet_overwriteMap_self l k v ((any_key_iff l k).mp hany)
  · rw [if_neg hany]
    rw [mapGet_append]
    have hnone : mapGet l k = none := by
      cases hg : mapGet l k with
      | none => rfl
      | some w => exact absurd ((any_key_iff l k).mpr (by simp [hg])) hany
    rw [hnone]
    simp [mapGet_cons]

theorem mapGet_mapSet_ne (l : List (String × LinkMeta)) (k k' : String) (v : LinkMeta)
    (h : k' ≠ k) : mapGet (mapSet l k v) k' = mapGet l k' := by
  unfold mapSet
  by_cases hany : (l.any (fun p => p.1 == k)) = true
  · rw [if_pos hany]
    simp only [beq_iff_eq]
    exact mapGet_overwriteMap_ne l k k' v h
  · rw [if_neg hany]
    rw [mapGet_append]
    have hk : (k : String) ≠ k' := fun hc => h hc.symm
    have htail : mapGet [(k, v)] k' = none := by
      rw [mapGet_cons, if_neg (show ¬ (((k, v) : String × LinkMeta).1 = k') from hk)]
      rfl
    rw [htail]
    cases hg : mapGet l k' <;> simp [Option.orElse]

theorem mapGet_mapDelete_self (l : List (String × LinkMeta)) (k : String) :
    mapGet (mapDelete l k) k = none := by
  rw [mapGet_eq_none_iff]
  intro p hp
  have := List.of_mem_filter hp
  simpa using this

theorem mapGet_mapDelete_ne (l : List (String × LinkMeta)) (k k' : String)
    (h : k' ≠ k) : mapGet (mapDelete l k) k' = mapGet l k' := by
  induction l with
  | nil => rfl
  | cons q l ih =>
    rw [show mapDelete (q :: l) k = List.filter (fun p => !(p.1 == k)) (q :: l) from rfl,
        List.filter_cons]
    by_cases hq : q.1 = k
    · have hq' : q.1 ≠ k' := by rw [hq]; exact fun hc => h hc.symm
      rw [if_neg (by simp [hq])]
      rw [show List.filter (fun p => !(p.1 == k)) l = mapDelete l k from rfl, ih,
          mapGet_cons, if_neg hq']
    · rw [if_pos (by simp [hq]), mapGet_cons, mapGet_cons,
          show List.filter (fun p => !(p.1 == k)) l = mapDelete l k from rfl]
      by_cases hq' : q.1 = k'
      · rw [if_pos hq', if_pos hq']
      · rw [if_neg hq', if_neg hq']
        exact ih

theorem mem_mapSet (l : List (String × LinkMeta)) (k : String) (v : LinkMeta)
    (p : String × LinkMeta) (hp : p ∈ mapSet l k v) : p = (k, v) ∨ p ∈ l := by
  unfold mapSet at hp
  by_cases hany : l.any (fun q => q.1 == k)
  · simp only [hany, if_true] at hp
    obtain ⟨q, hq, hqe⟩ := List.mem_map.mp hp
    by_cases hqk : q.1 = k
    · simp [hqk] at hqe; exact Or.inl hqe.symm
    · simp [hqk] at hqe; exact Or.inr (hqe ▸ hq)
  · simp only [hany, if_false] at hp
    rcases List.mem_append.mp hp with h | h
    · exact Or.inr h
    · simp at h; exact Or.inl h

theorem mem_mapDelete (l : List (String × LinkMeta)) (k : String)
    (p : String × LinkMeta) (hp : p ∈ mapDelete l k) : p ∈ l ∧ p.1 ≠ k := by
  refine ⟨List.mem_of_mem_filter hp, ?_⟩
  have := List.of_mem_filter hp
  simpa using this

theorem mapSet_of_absent (l : List (String × LinkMeta)) (k : String) (v : LinkMeta)
    (h : ∀ p ∈ l, p.1 ≠ k) : mapSet l k v = l ++ [(k, v)] := by
  unfold mapSet
  have : l.any (fun p => p.1 == k) = false := by
    rw [List.any_eq_false]
    intro p hp
    simp [h p hp]
  simp [this]

/-! Store-level lemmas: find?, modifyBlock, storeSet. -/

theorem getBlock_def (e : BlockEngine) (id : String) :
    e.getBlock id = e.blocks.find? (fun b => b.id == id) := rfl

theorem find?_cons_block (b : Block) (bs : List Block) (id : String) :
    (b :: bs).find? (fun c => c.id == id) =
      if b.id = id then some b else bs.find? (fun c => c.id == id) := by
  by_cases h : b.id = id <;> simp [List.find?_cons, h]

theorem find?_modifyBlock_self (bs : List Block) (id : String) (f : Block → Block)
    (hf : ∀ b, (f b).id = b.id) :
    (modifyBlock bs id f).find? (fun c => c.id == id) =
      (bs.find? (fun c => c.id == id)).map f := by
  induction bs with
  | nil => rfl
  | cons b bs ih =>
    simp only [modifyBlock, List.map_cons]
    by_cases hb : b.id = id
    · rw [if_pos (by simp [hb]), find?_cons_block, if_pos (by rw [hf]; exact hb),
          find?_cons_block, if_pos hb]
      rfl
    · rw [if_neg (by simp [hb]), find?_cons_block, if_neg hb, find?_cons_block, if_neg hb]
      exact ih

theorem find?_modifyBlock_ne (bs : List Block) (id id' : String) (f : Block → Block)
    (hf : ∀ b, (f b).id = b.id) (h : id' ≠ id) :
    (modifyBlock bs id f).find? (fun c => c.id == id') =
      bs.find? (fun c => c.id == id') := by
  induction bs with
  | nil => rfl
  | cons b bs ih =>
    simp only [modifyBlock, List.map_cons]
    by_cases hb : b.id = id
    · have hb' : b.id ≠ id' := by rw [hb]; exact fun hc => h hc.symm
      rw [if_pos (by simp [hb]), find?_cons_block,
          if_neg (by rw [hf, hb]; exact fun hc => h hc.symm),
          find?_cons_block, if_neg hb']
      exact ih
    · rw [if_neg (by simp [hb]), find?_cons_block, find?_cons_block]
      by_cases hb' : b.id = id'
      · rw [if_pos hb', if_pos hb']
      · rw [if_neg hb', if_neg hb']
        exact ih

theorem mem_modifyBlock (bs : List Block) (id : String) (f : Block → Block)
    (b' : Block) (h : b' ∈ modifyBlock bs id f) :
    ∃ c ∈ bs, b' = c ∨ b' = f c := by
  obtain ⟨c, hc, hce⟩ := List.mem_map.mp h
  refine ⟨c, hc, ?_⟩
  by_cases hcid : c.id = id
  · simp [hcid] at hce
    exact Or.inr hce.symm
  · simp [hcid] at hce
    exact Or.inl hce.symm

theorem ids_modifyBlock (bs : List Block) (id : String) (f : Block → Block)
    (hf : ∀ b, (f b).id = b.id) :
    (modifyBlock bs id f).map (fun b => b.id) = bs.map (fun b => b.id) := by
  simp only [modifyBlock, List.map_map]
  refine List.map_congr_left ?_
  intro b _
  by_cases hb : b.id = id <;> simp [hb, hf]

theorem mem_storeSet (bs : List Block) (b b' : Block) (h : b' ∈ storeSet bs b) :
    b' = b ∨ b' ∈ bs := by
  unfold storeSet at h
  by_cases hany : (bs.any (fun c => c.id == b.id)) = true
  · rw [if_pos hany] at h
    obtain ⟨c, hc, hce⟩ := List.mem_map.mp h
    by_cases hcb : c.id = b.id
    · simp [hcb] at hce
      exact Or.inl hce.symm
    · simp [hcb] at hce
      exact Or.inr (hce ▸ hc)
  · rw [if_neg hany] at h
    rcases List.mem_append.mp h with h | h
    · exact Or.inr h
    · simp at h
      exact Or.inl h

theorem ids_storeSet_superset (bs : List Block) (b : Block) (k : String)
    (h : k ∈ bs.map (fun c => c.id)) : k ∈ (storeSet bs b).map (fun c => c.id) := by
  unfold storeSet
  by_cases hany : (bs.any (fun c => c.id == b.id)) = true
  · rw [if_pos hany]
    obtain ⟨c, hc, hck⟩ := List.mem_map.mp h
    simp only [List.map_map, List.mem_map, Function.comp]
    refine ⟨c, hc, ?_⟩
    by_cases hcb : c.id = b.id
    · simp only [hcb, beq_self_eq_true, if_true]
      rw [← hcb, hck]
    · simp only [beq_iff_eq, hcb, if_false]
      exact hck
  · rw [if_neg hany]
    simp only [List.map_append]
    exact List.mem_append.mpr (Or.inl h)

/-! Observables used by the claims: the type stored on a directed edge, and
the pair of edge types between two blocks. -/

/-- The type of the stored edge fromId → toId, none when absent. -/
def linkTypeOf (e : BlockEngine) (fromId toId : String) : Option String :=
  (e.getBlock fromId).bind (fun b => b.getLinkType toId)

/-- The typed edge state of an unordered pair, as seen from a then from b. -/
def pairTypes (e : BlockEngine) (a b : String) : Option String × Option String :=
  (linkTypeOf e a b, linkTypeOf e b a)

theorem removeLink_id (c : Block) (k : String) (now : Nat) :
    (c.removeLink k now).id = c.id := rfl

theorem addLink_id (c : Block) (k lt : String) (now : Nat) :
    (c.addLink k lt now).id = c.id := rfl

theorem getLinkType_removeLink_self (c : Block) (k : String) (now : Nat) :
    (c.removeLink k now).getLinkType k = none := by
  simp [Block.getLinkType, Block.removeLink, mapGet_mapDelete_self]

theorem getLinkType_removeLink_ne (c : Block) (k k' : String) (now : Nat)
    (h : k' ≠ k) : (c.removeLink k now).getLinkType k' = c.getLinkType k' := by
  simp [Block.getLinkType, Block.removeLink, mapGet_mapDelete_ne _ _ _ h]

theorem getLinkType_addLink_self (c : Block) (k lt : String) (now : Nat) :
    (c.addLink k lt now).getLinkType k = some lt := by
  simp [Block.getLinkType, Block.addLink, mapGet_mapSet_self]

theorem getLinkType_addLink_ne (c : Block) (k k' lt : String) (now : Nat)
    (h : k' ≠ k) : (c.addLink k lt now).getLinkType k' = c.getLinkType k' := by
  simp [Block.getLinkType, Block.addLink, mapGet_mapSet_ne _ _ _ _ h]

theorem hasLink_eq_isSome_getLinkType (c : Block) (k : String) :
    c.hasLink k = (c.getLinkType k).isSome := by
  simp [Block.hasLink, Block.getLinkType]

theorem linkBlocks_eq_of_found (e : BlockEngine) (a b t : String) (now : Nat)
    (fb tb : Block) (ha : e.getBlock a = some fb) (hb : e.getBlock b = some tb) :
    e.linkBlocks a b t now =
      (true,
       { e with
         blocks :=
           (let bs2 := modifyBlock (modifyBlock e.blocks a (fun c => c.removeLink b now))
                         b (fun c => c.removeLink a now)
            if t = "single" then
              modifyBlock bs2 a (fun c => c.addLink b "single" now)
            else if t = "reverse" then
              modifyBlock bs2 b (fun c => c.addLink a "single" now)
            else if t = "double" then
              modifyBlock (modifyBlock bs2 a (fun c => c.addLink b "double" now))
                b (fun c => c.addLink a "double" now)
            else bs2),
         events := e.events ++ [Event.blocksLinked a b t] }) := by
  rw [BlockEngine.linkBlocks, ha, hb]


theorem blocks_linkBlocks_single (e : BlockEngine) (a b : String) (now : Nat)
    (fb tb : Block) (ha : e.getBlock a = some fb) (hb : e.getBlock b = some tb) :
    (e.linkBlocks a b "single" now).2.blocks =
      modifyBlock (modifyBlock (modifyBlock e.blocks a (fun c => c.removeLink b now))
        b (fun c => c.removeLink a now)) a (fun c => c.addLink b "single" now) := by
  rw [linkBlocks_eq_of_found e a b "single" now fb tb ha hb]
  simp

theorem blocks_linkBlocks_reverse (e : BlockEngine) (a b : String) (now : Nat)
    (fb tb : Block) (ha : e.getBlock a = some fb) (hb : e.getBlock b = some tb) :
    (e.linkBlocks a b "reverse" now).2.blocks =
      modifyBlock (modifyBlock (modifyBlock e.blocks a (fun c => c.removeLink b now))
        b (fun c => c.removeLink a now)) b (fun c => c.addLink a "single" now) := by
  rw [linkBlocks_eq_of_found e a b "reverse" now fb tb ha hb]
  simp

theorem blocks_linkBlocks_double (e : BlockEngine) (a b : String) (now : Nat)
    (fb tb : Block) (ha : e.getBlock a = some fb) (hb : e.getBlock b = some tb) :
    (e.linkBlocks a b "double" now).2.blocks =
      modifyBlock (modifyBlock (modifyBlock (modifyBlock e.blocks
          a (fun c => c.removeLink b now)) b (fun c => c.removeLink a now))
        a (fun c => c.addLink b "double" now)) b (fun c => c.addLink a "double" now) := by
  rw [linkBlocks_eq_of_found e a b "double" now fb tb ha hb]
  simp

theorem blocks_linkBlocks_unknown (e : BlockEngine) (a b t : String) (now : Nat)
    (fb tb : Block) (ha : e.getBlock a = some fb) (hb : e.getBlock b = some tb)
    (h1 : t ≠ "single") (h2 : t ≠ "reverse") (h3 : t ≠ "double") :
    (e.linkBlocks a b t now).2.blocks =
      modifyBlock (modifyBlock e.blocks a (fun c => c.removeLink b now))
        b (fun c => c.removeLink a now) := by
  rw [linkBlocks_eq_of_found e a b t now fb tb ha hb]
  simp [h1, h2, h3]

theorem linkBlocks_fst (e : BlockEngine) (a b t : String) (now : Nat)
    (fb tb : Block) (ha : e.getBlock a = some fb) (hb : e.getBlock b = some tb) :
    (e.linkBlocks a b t now).1 = true := by
  rw [linkBlocks_eq_of_found e a b t now fb tb ha hb]

theorem linkBlocks_events (e : BlockEngine) (a b t : String) (now : Nat)
    (fb tb : Block) (ha : e.getBlock a = some fb) (hb : e.getBlock b = some tb) :
    (e.linkBlocks a b t now).2.events = e.events ++ [Event.blocksLinked a b t] := by
  rw [linkBlocks_eq_of_found e a b t now fb tb ha hb]

theorem linkTypeOf_linkBlocks_single_fwd (e : BlockEngine) (a b : String) (now : Nat)
    (fb tb : Block) (hab : a ≠ b)
    (ha : e.getBlock a = some fb) (hb : e.getBlock b = some tb) :
    linkTypeOf (e.linkBlocks a b "single" now).2 a b = some "single" := by
  simp only [linkTypeOf, BlockEngine.getBlock,
    blocks_linkBlocks_single e a b now fb tb ha hb]
  rw [find?_modifyBlock_self _ _ (fun c => c.addLink b "single" now) (fun c => rfl),
      find?_modifyBlock_ne _ _ _ (fun c => c.removeLink a now) (fun c => rfl) hab,
      find?_modifyBlock_self _ _ (fun c => c.removeLink b now) (fun c => rfl),
      show List.find? (fun c => c.id == a) e.blocks = some fb from ha]
  simp [getLinkType_addLink_self]

theorem linkTypeOf_linkBlocks_single_bwd (e : BlockEngine) (a b : String) (now : Nat)
    (fb tb : Block) (hab : a ≠ b)
    (ha : e.getBlock a = some fb) (hb : e.getBlock b = some tb) :
    linkTypeOf (e.linkBlocks a b "single" now).2 b a = none := by
  have hba : b ≠ a := fun hc => hab hc.symm
  simp only [linkTypeOf, BlockEngine.getBlock,
    blocks_linkBlocks_single e a b now fb tb ha hb]
  rw [find?_modifyBlock_ne _ _ _ (fun c => c.addLink b "single" now) (fun c => rfl) hba,
      find?_modifyBlock_self _ _ (fun c => c.removeLink a now) (fun c => rfl),
      find?_modifyBlock_ne _ _ _ (fun c => c.removeLink b now) (fun c => rfl) hba,
      show List.find? (fun c => c.id == b) e.blocks = some tb from hb]
  simp [getLinkType_removeLink_self]

theorem linkTypeOf_linkBlocks_reverse_fwd (e : BlockEngine) (a b : String) (now : Nat)
    (fb tb : Block) (hab : a ≠ b)
    (ha : e.getBlock a = some fb) (hb : e.getBlock b = some tb) :
    linkTypeOf (e.linkBlocks a b "reverse" now).2 a b = none := by
  simp only [linkTypeOf, BlockEngine.getBlock,
    blocks_linkBlocks_reverse e a b now fb tb ha hb]
  rw [find?_modifyBlock_ne _ _ _ (fun c => c.addLink a "single" now) (fun c => rfl) hab,
      find?_modifyBlock_ne _ _ _ (fun c => c.removeLink a now) (fun c => rfl) hab,
      find?_modifyBlock_self _ _ (fun c => c.removeLink b now) (fun c => rfl),
      show List.find? (fun c => c.id == a) e.blocks = some fb from ha]
  simp [getLinkType_removeLink_self]

theorem linkTypeOf_linkBlocks_reverse_bwd (e : BlockEngine) (a b : String) (now : Nat)
    (fb tb : Block) (hab : a ≠ b)
    (ha : e.getBlock a = some fb) (hb : e.getBlock b = some tb) :
    linkTypeOf (e.linkBlocks a b "reverse" now).2 b a = some "single" := by
  have hba : b ≠ a := fun hc => hab hc.symm
  simp only [linkTypeOf, BlockEngine.getBlock,
    blocks_linkBlocks_reverse e a b now fb tb ha hb]
  rw [find?_modifyBlock_self _ _ (fun c => c.addLink a "single" now) (fun c => rfl),
      find?_modifyBlock_self _ _ (fun c => c.removeLink a now) (fun c => rfl),
      find?_modifyBlock_ne _ _ _ (fun c => c.removeLink b now) (fun c => rfl) hba,
      show List.find? (fun c => c.id == b) e.blocks = some tb from hb]
  simp [getLinkType_addLink_self]

theorem linkTypeOf_linkBlocks_double_fwd (e : BlockEngine) (a b : String) (now : Nat)
    (fb tb : Block) (hab : a ≠ b)
    (ha : e.getBlock a = some fb) (hb : e.getBlock b = some tb) :
    linkTypeOf (e.linkBlocks a b "double" now).2 a b = some "double" := by
  simp only [linkTypeOf, BlockEngine.getBlock,
    blocks_linkBlocks_double e a b now fb tb ha hb]
  rw [find?_modifyBlock_ne _ _ _ (fun c => c.addLink a "double" now) (fun c => rfl) hab,
      find?_modifyBlock_self _ _ (fun c => c.addLink b "double" now) (fun c => rfl),
      find?_modifyBlock_ne _ _ _ (fun c => c.removeLink a now) (fun c => rfl) hab,
      find?_modifyBlock_self _ _ (fun c => c.removeLink b now) (fun c => rfl),
      show List.find? (fun c => c.id == a) e.blocks = some fb from ha]
  simp [getLinkType_addLink_self]

theorem linkTypeOf_linkBlocks_double_bwd (e : BlockEngine) (a b : String) (now : Nat)
    (fb tb : Block) (hab : a ≠ b)
    (ha : e.getBlock a = some fb) (hb : e.getBlock b = some tb) :
    linkTypeOf (e.linkBlocks a b "double" now).2 b a = some "double" := by
  have hba : b ≠ a := fun hc => hab hc.symm
  simp only [linkTypeOf, BlockEngine.getBlock,
    blocks_linkBlocks_double e a b now fb tb ha hb]
  rw [find?_modifyBlock_self _ _ (fun c => c.addLink a "double" now) (fun c => rfl),
      find?_modifyBlock_ne _ _ _ (fun c => c.addLink b "double" now) (fun c => rfl) hba,
      find?_modifyBlock_self _ _ (fun c => c.removeLink a now) (fun c => rfl),
      find?_modifyBlock_ne _ _ _ (fun c => c.removeLink b now) (fun c => rfl) hba,
      show List.find? (fun c => c.id == b) e.blocks = some tb from hb]
  simp [getLinkType_addLink_self]

theorem linkTypeOf_linkBlocks_unknown_fwd (e : BlockEngine) (a b t : String) (now : Nat)
    (fb tb : Block) (hab : a ≠ b)
    (ha : e.getBlock a = some fb) (hb : e.getBlock b = some tb)
    (h1 : t ≠ "single") (h2 : t ≠ "reverse") (h3 : t ≠ "double") :
    linkTypeOf (e.linkBlocks a b t now).2 a b = none := by
  simp only [linkTypeOf, BlockEngine.getBlock,
    blocks_linkBlocks_unknown e a b t now fb tb ha hb h1 h2 h3]
  rw [find?_modifyBlock_ne _ _ _ (fun c => c.removeLink a now) (fun c => rfl) hab,
      find?_modifyBlock_self _ _ (fun c => c.removeLink b now) (fun c => rfl),
      show List.find? (fun c => c.id == a) e.blocks = some fb from ha]
  simp [getLinkType_removeLink_self]

theorem linkTypeOf_linkBlocks_unknown_bwd (e : BlockEngine) (a b t : String) (now : Nat)
    (fb tb : Block) (hab : a ≠ b)
    (ha : e.getBlock a = some fb) (hb : e.getBlock b = some tb)
    (h1 : t ≠ "single") (h2 : t ≠ "reverse") (h3 : t ≠ "double") :
    linkTypeOf (e.linkBlocks a b t now).2 b a = none := by
  have hba : b ≠ a := fun hc => hab hc.symm
  simp only [linkTypeOf, BlockEngine.getBlock,
    blocks_linkBlocks_unknown e a b t now fb tb ha hb h1 h2 h3]
  rw [find?_modifyBlock_self _ _ (fun c => c.removeLink a now) (fun c => rfl),
      find?_modifyBlock_ne _ _ _ (fun c => c.removeLink b now) (fun c => rfl) hba,
      show List.find? (fun c => c.id == b) e.blocks = some tb from hb]
  simp [getLinkType_removeLink_self]

theorem find?_isSome_modifyBlock (bs : List Block) (id : String) (f : Block → Block)
    (hf : ∀ b, (f b).id = b.id) (id' : String) :
    ((modifyBlock bs id f).find? (fun c => c.id == id')).isSome =
      (bs.find? (fun c => c.id == id')).isSome := by
  by_cases h : id' = id
  · subst h
    rw [find?_modifyBlock_self _ _ f hf]
    cases bs.find? (fun c => c.id == id') <;> rfl
  · rw [find?_modifyBlock_ne _ _ _ f hf h]

theorem getBlock_isSome_linkBlocks (e : BlockEngine) (a b t : String) (now : Nat)
    (fb tb : Block) (ha : e.getBlock a = some fb) (hb : e.getBlock b = some tb)
    (c : String) :
    ((e.linkBlocks a b t now).2.getBlock c).isSome = (e.getBlock c).isSome := by
  by_cases h1 : t = "single"
  · subst h1
    simp only [BlockEngine.getBlock, blocks_linkBlocks_single e a b now fb tb ha hb]
    rw [find?_isSome_modifyBlock _ _ (fun x => x.addLink b "single" now) (fun x => rfl),
        find?_isSome_modifyBlock _ _ (fun x => x.removeLink a now) (fun x => rfl),
        find?_isSome_modifyBlock _ _ (fun x => x.removeLink b now) (fun x => rfl)]
  · by_cases h2 : t = "reverse"
    · subst h2
      simp only [BlockEngine.getBlock, blocks_linkBlocks_reverse e a b now fb tb ha hb]
      rw [find?_isSome_modifyBlock _ _ (fun x => x.addLink a "single" now) (fun x => rfl),
          find?_isSome_modifyBlock _ _ (fun x => x.removeLink a now) (fun x => rfl),
          find?_isSome_modifyBlock _ _ (fun x => x.removeLink b now) (fun x => rfl)]
    · by_cases h3 : t = "double"
      · subst h3
        simp only [BlockEngine.getBlock, blocks_linkBlocks_double e a b now fb tb ha hb]
        rw [find?_isSome_modifyBlock _ _ (fun x => x.addLink a "double" now) (fun x => rfl),
            find?_isSome_modifyBlock _ _ (fun x => x.addLink b "double" now) (fun x => rfl),
            find?_isSome_modifyBlock _ _ (fun x => x.removeLink a now) (fun x => rfl),
            find?_isSome_modifyBlock _ _ (fun x => x.removeLink b now) (fun x => rfl)]
      · simp only [BlockEngine.getBlock,
          blocks_linkBlocks_unknown e a b t now fb tb ha hb h1 h2 h3]
        rw [find?_isSome_modifyBlock _ _ (fun x => x.removeLink a now) (fun x => rfl),
            find?_isSome_modifyBlock _ _ (fun x => x.removeLink b now) (fun x => rfl)]

theorem linkTypeOf_linkBlocks_unknown_other (e : BlockEngine) (a b t : String)
    (now : Nat) (fb tb : Block) (hab : a ≠ b)
    (ha : e.getBlock a = some fb) (hb : e.getBlock b = some tb)
    (h1 : t ≠ "single") (h2 : t ≠ "reverse") (h3 : t ≠ "double") (c d : String)
    (hcd1 : ¬(c = a ∧ d = b)) (hcd2 : ¬(c = b ∧ d = a)) :
    linkTypeOf (e.linkBlocks a b t now).2 c d = linkTypeOf e c d := by
  have hba : b ≠ a := fun hc => hab hc.symm
  simp only [linkTypeOf, BlockEngine.getBlock,
    blocks_linkBlocks_unknown e a b t now fb tb ha hb h1 h2 h3]
  by_cases hc1 : c = a
  · have hd : d ≠ b := fun hdb => hcd1 ⟨hc1, hdb⟩
    rw [hc1,
        find?_modifyBlock_ne _ _ _ (fun x => x.removeLink a now) (fun x => rfl) hab,
        find?_modifyBlock_self _ _ (fun x => x.removeLink b now) (fun x => rfl),
        show List.find? (fun x => x.id == a) e.blocks = some fb from ha]
    simp [getLinkType_removeLink_ne fb b d now hd]
  · by_cases hc2 : c = b
    · have hd : d ≠ a := fun hda => hcd2 ⟨hc2, hda⟩
      rw [hc2,
          find?_modifyBlock_self _ _ (fun x => x.removeLink a now) (fun x => rfl),
          find?_modifyBlock_ne _ _ _ (fun x => x.removeLink b now) (fun x => rfl) hba,
          show List.find? (fun x => x.id == b) e.blocks = some tb from hb]
      simp [getLinkType_removeLink_ne tb a d now hd]
    · rw [find?_modifyBlock_ne _ _ _ (fun x => x.removeLink a now) (fun x => rfl) hc2,
          find?_modifyBlock_ne _ _ _ (fun x => x.removeLink b now) (fun x => rfl) hc1]

/-! Concrete fixtures for counterexamples and witnesses. -/

/-- A concrete block "a" at (50,50) with no links. -/
def demoBlockA : Block :=
  { id := "a", content := "A", type := "default", links := [],
    position := ⟨50, 50⟩, size := ⟨250, 250⟩, metadata := ⟨0, 0⟩ }

/-- A concrete block "b" at (350,50) with no links. -/
def demoBlockB : Block :=
  { id := "b", content := "B", type := "default", links := [],
    position := ⟨350, 50⟩, size := ⟨250, 250⟩, metadata := ⟨0, 0⟩ }

/-- A two-block store with no edges. -/
def demoEngine : BlockEngine :=
  { blocks := [demoBlockA, demoBlockB], settings := ⟨20, 300, 150, 100⟩, events := [] }

/-- C1 counterexample: on a two-block store with no edges, linkBlocks with
the reverse intent followed by getLinkInfo returns a record whose type field
is "reverse" — not "single" as the claim states — with the from and to
fields swapped to b, a. -/
theorem C1_counterexample :
    ((demoEngine.linkBlocks "a" "b" "reverse" 1).2.getLinkInfo "a" "b") =
      some ⟨"reverse", "b", "a"⟩ ∧
    ((demoEngine.linkBlocks "a" "b" "reverse" 1).2.getLinkInfo "a" "b") ≠
      some ⟨"single", "b", "a"⟩ := by decide

/-- C1 (amended): for blocks A and B with no edge between them in either
direction, after linkBlocks(A,B,"reverse") a call to getLinkInfo(A,B)
returns a result whose type field is "reverse" (not "single"), whose from
field is B's id and whose to field is A's id — the caller's argument order
is swapped to the direction of the edge that actually exists. -/
theorem C1_reverse_linkinfo_amended (e : BlockEngine) (a b : String) (now : Nat)
    (fb tb : Block) (hab : a ≠ b)
    (ha : e.getBlock a = some fb) (hb : e.getBlock b = some tb)
    (hnofwd : fb.getLinkType b = none) (hnobwd : tb.getLinkType a = none) :
    (e.linkBlocks a b "reverse" now).2.getLinkInfo a b = some ⟨"reverse", b, a⟩ := by
  have hba : b ≠ a := fun hc => hab hc.symm
  have hga : (e.linkBlocks a b "reverse" now).2.getBlock a =
      some (fb.removeLink b now) := by
    simp only [BlockEngine.getBlock, blocks_linkBlocks_reverse e a b now fb tb ha hb]
    rw [find?_modifyBlock_ne _ _ _ (fun c => c.addLink a "single" now) (fun c => rfl) hab,
        find?_modifyBlock_ne _ _ _ (fun c => c.removeLink a now) (fun c => rfl) hab,
        find?_modifyBlock_self _ _ (fun c => c.removeLink b now) (fun c => rfl),
        show List.find? (fun c => c.id == a) e.blocks = some fb from ha]
    rfl
  have hgb : (e.linkBlocks a b "reverse" now).2.getBlock b =
      some ((tb.removeLink a now).addLink a "single" now) := by
    simp only [BlockEngine.getBlock, blocks_linkBlocks_reverse e a b now fb tb ha hb]
    rw [find?_modifyBlock_self _ _ (fun c => c.addLink a "single" now) (fun c => rfl),
        find?_modifyBlock_self _ _ (fun c => c.removeLink a now) (fun c => rfl),
        find?_modifyBlock_ne _ _ _ (fun c => c.removeLink b now) (fun c => rfl) hba,
        show List.find? (fun c => c.id == b) e.blocks = some tb from hb]
    rfl
  have h1 : (fb.removeLink b now).hasLink b = false := by
    rw [hasLink_eq_isSome_getLinkType, getLinkType_removeLink_self]
    rfl
  have h2 : ((tb.removeLink a now).addLink a "single" now).hasLink a = true := by
    rw [hasLink_eq_isSome_getLinkType, getLinkType_addLink_self]
    rfl
  simp only [BlockEngine.getLinkInfo, hga, hgb, h1, h2]
  rfl

/-- C1 amended witness: the fixture instantiation of the amended theorem. -/
theorem C1_amended_witness :
    (demoEngine.linkBlocks "a" "b" "reverse" 1).2.getLinkInfo "a" "b" =
      some ⟨"reverse", "b", "a"⟩ :=
  C1_reverse_linkinfo_amended demoEngine "a" "b" 1 demoBlockA demoBlockB
    (by decide) (by decide) (by decide) (by decide) (by decide)

/-- The typed pair edge state each recognized intent prescribes, written
from the spec's description of linkBlocks. -/
def prescribedPair (t : String) : Option String × Option String :=
  if t = "single" then (some "single", none)
  else if t = "reverse" then (none, some "single")
  else (some "double", some "double")

/-- C5: for two distinct existing blocks and a recognized intent, linkBlocks
first clears both directions and installs exactly the prescribed edges, so
the typed edge state of the pair afterwards depends only on the arguments
and not on the prior edge state; in particular a second call with the same
arguments leaves that edge state unchanged. -/
theorem C5_linkBlocks_pair_determined (e : BlockEngine) (a b t : String)
    (now now2 : Nat) (fb tb : Block) (hab : a ≠ b)
    (ha : e.getBlock a = some fb) (hb : e.getBlock b = some tb)
    (ht : t = "single" ∨ t = "reverse" ∨ t = "double") :
    pairTypes (e.linkBlocks a b t now).2 a b = prescribedPair t ∧
    pairTypes ((e.linkBlocks a b t now).2.linkBlocks a b t now2).2 a b =
      pairTypes (e.linkBlocks a b t now).2 a b := by
  obtain ⟨fb1, ha1⟩ := Option.isSome_iff_exists.mp
    (by rw [getBlock_isSome_linkBlocks e a b t now fb tb ha hb a, ha]; rfl)
  obtain ⟨tb1, hb1⟩ := Option.isSome_iff_exists.mp
    (by rw [getBlock_isSome_linkBlocks e a b t now fb tb ha hb b, hb]; rfl)
  rcases ht with h | h | h <;> subst h
  · constructor
    · rw [pairTypes, linkTypeOf_linkBlocks_single_fwd e a b now fb tb hab ha hb,
          linkTypeOf_linkBlocks_single_bwd e a b now fb tb hab ha hb]
      rfl
    · rw [pairTypes, pairTypes,
          linkTypeOf_linkBlocks_single_fwd e a b now fb tb hab ha hb,
          linkTypeOf_linkBlocks_single_bwd e a b now fb tb hab ha hb,
          linkTypeOf_linkBlocks_single_fwd _ a b now2 fb1 tb1 hab ha1 hb1,
          linkTypeOf_linkBlocks_single_bwd _ a b now2 fb1 tb1 hab ha1 hb1]
  · constructor
    · rw [pairTypes, linkTypeOf_linkBlocks_reverse_fwd e a b now fb tb hab ha hb,
          linkTypeOf_linkBlocks_reverse_bwd e a b now fb tb hab ha hb]
      rfl
    · rw [pairTypes, pairTypes,
          linkTypeOf_linkBlocks_reverse_fwd e a b now fb tb hab ha hb,
          linkTypeOf_linkBlocks_reverse_bwd e a b now fb tb hab ha hb,
          linkTypeOf_linkBlocks_reverse_fwd _ a b now2 fb1 tb1 hab ha1 hb1,
          linkTypeOf_linkBlocks_reverse_bwd _ a b now2 fb1 tb1 hab ha1 hb1]
  · constructor
    · rw [pairTypes, linkTypeOf_linkBlocks_double_fwd e a b now fb tb hab ha hb,
          linkTypeOf_linkBlocks_double_bwd e a b now fb tb hab ha hb]
      rfl
    · rw [pairTypes, pairTypes,
          linkTypeOf_linkBlocks_double_fwd e a b now fb tb hab ha hb,
          linkTypeOf_linkBlocks_double_bwd e a b now fb tb hab ha hb,
          linkTypeOf_linkBlocks_double_fwd _ a b now2 fb1 tb1 hab ha1 hb1,
          linkTypeOf_linkBlocks_double_bwd _ a b now2 fb1 tb1 hab ha1 hb1]

/-- C5 witness: the fixture instantiation of the pair-determinism theorem at
the single intent. -/
theorem C5_witness :
    pairTypes (demoEngine.linkBlocks "a" "b" "single" 1).2 "a" "b" =
      prescribedPair "single" ∧
    pairTypes ((demoEngine.linkBlocks "a" "b" "single" 1).2.linkBlocks
        "a" "b" "single" 2).2 "a" "b" =
      pairTypes (demoEngine.linkBlocks "a" "b" "single" 1).2 "a" "b" :=
  C5_linkBlocks_pair_determined demoEngine "a" "b" "single" 1 2
    demoBlockA demoBlockB (by decide) (by decide) (by decide) (Or.inl rfl)

/-- C10: for two distinct existing blocks and an intent outside single,
reverse, double, linkBlocks returns true, removes both directed edges of the
pair, installs nothing, leaves every other directed edge unchanged, and
publishes blocksLinked — an unrecognized intent acts as an unlink that
reports success. -/
theorem C10_unknown_type_unlinks (e : BlockEngine) (a b t : String) (now : Nat)
    (fb tb : Block) (hab : a ≠ b)
    (ha : e.getBlock a = some fb) (hb : e.getBlock b = some tb)
    (h1 : t ≠ "single") (h2 : t ≠ "reverse") (h3 : t ≠ "double") :
    (e.linkBlocks a b t now).1 = true ∧
    pairTypes (e.linkBlocks a b t now).2 a b = (none, none) ∧
    (∀ c d : String, ¬(c = a ∧ d = b) → ¬(c = b ∧ d = a) →
      linkTypeOf (e.linkBlocks a b t now).2 c d = linkTypeOf e c d) ∧
    (e.linkBlocks a b t now).2.events = e.events ++ [Event.blocksLinked a b t] := by
  refine ⟨linkBlocks_fst e a b t now fb tb ha hb, ?_, ?_,
    linkBlocks_events e a b t now fb tb ha hb⟩
  · rw [pairTypes, linkTypeOf_linkBlocks_unknown_fwd e a b t now fb tb hab ha hb h1 h2 h3,
        linkTypeOf_linkBlocks_unknown_bwd e a b t now fb tb hab ha hb h1 h2 h3]
  · intro c d hcd1 hcd2
    exact linkTypeOf_linkBlocks_unknown_other e a b t now fb tb hab ha hb h1 h2 h3
      c d hcd1 hcd2

/-- C10 witness: the fixture instantiation with the unrecognized intent
"weird", spot-checking the untouched-edge clause at the pair (a,q). -/
theorem C10_witness :
    (demoEngine.linkBlocks "a" "b" "weird" 1).1 = true ∧
    pairTypes (demoEngine.linkBlocks "a" "b" "weird" 1).2 "a" "b" = (none, none) ∧
    linkTypeOf (demoEngine.linkBlocks "a" "b" "weird" 1).2 "a" "q" =
      linkTypeOf demoEngine "a" "q" ∧
    (demoEngine.linkBlocks "a" "b" "weird" 1).2.events =
      demoEngine.events ++ [Event.blocksLinked "a" "b" "weird"] := by
  obtain ⟨h1, h2, h3, h4⟩ := C10_unknown_type_unlinks demoEngine "a" "b" "weird" 1
    demoBlockA demoBlockB (by decide) (by decide) (by decide)
    (by decide) (by decide) (by decide)
  exact ⟨h1, h2, h3 "a" "q" (by decide) (by decide), h4⟩

theorem setBlockPosition_spec (e : BlockEngine) (id : String) (x y : ℚ) (now : Nat)
    (blk : Block) (h : e.getBlock id = some blk) :
    e.setBlockPosition id x y true now =
      (true, { e with
        blocks := modifyBlock e.blocks id (fun b =>
          b.setPosition (snap x e.settings.gridSize) (snap y e.settings.gridSize) now),
        events := e.events ++ [Event.blockMoved id] }) := by
  rw [BlockEngine.setBlockPosition, h]
  rfl

theorem getBlock_setBlockPosition (e : BlockEngine) (id : String) (x y : ℚ)
    (now : Nat) (blk : Block) (h : e.getBlock id = some blk) :
    (e.setBlockPosition id x y true now).2.getBlock id =
      some (blk.setPosition (snap x e.settings.gridSize)
        (snap y e.settings.gridSize) now) := by
  rw [setBlockPosition_spec e id x y now blk h]
  simp only [BlockEngine.getBlock]
  rw [find?_modifyBlock_self _ _ (fun b =>
        b.setPosition (snap x e.settings.gridSize) (snap y e.settings.gridSize) now)
      (fun b => rfl),
      show List.find? (fun b => b.id == id) e.blocks = some blk from h]
  rfl

theorem snap_interval (v g : ℚ) (hg : 0 < g) :
    (∃ m : ℤ, snap v g = m * g) ∧ snap v g - g / 2 ≤ v ∧ v < snap v g + g / 2 := by
  have hgne : g ≠ 0 := ne_of_gt hg
  have hv : v / g * g = v := div_mul_cancel₀ v hgne
  have h1 : ((⌊v / g + 1 / 2⌋ : ℤ) : ℚ) ≤ v / g + 1 / 2 := Int.floor_le _
  have h2 : v / g + 1 / 2 < (⌊v / g + 1 / 2⌋ : ℤ) + 1 := Int.lt_floor_add_one _
  have e1 : ((⌊v / g + 1 / 2⌋ : ℤ) : ℚ) * g ≤ (v / g + 1 / 2) * g :=
    mul_le_mul_of_nonneg_right h1 hg.le
  have e2 : (v / g + 1 / 2) * g < (((⌊v / g + 1 / 2⌋ : ℤ) : ℚ) + 1) * g :=
    (mul_lt_mul_right hg).mpr h2
  rw [add_mul, hv] at e1
  rw [add_mul, hv, add_mul] at e2
  refine ⟨⟨jsRound (v / g), rfl⟩, ?_, ?_⟩
  · rw [snap, jsRound]
    linarith
  · rw [snap, jsRound]
    linarith

theorem snap_27_20 : snap 27 20 = 20 := by
  rw [snap, jsRound,
      show (⌊(27 : ℚ) / 20 + 1 / 2⌋ : ℤ) = 1 from by norm_num [Int.floor_eq_iff]]
  norm_num

theorem snap_33_20 : snap 33 20 = 40 := by
  rw [snap, jsRound,
      show (⌊(33 : ℚ) / 20 + 1 / 2⌋ : ℤ) = 2 from by norm_num [Int.floor_eq_iff]]
  norm_num

theorem snap_neg10_20 : snap (-10) 20 = 0 := by
  rw [snap, jsRound, show ((-10 : ℚ) / 20 + 1 / 2) = 0 from by norm_num]
  norm_num

/-- Round half away from zero, as the claim's words prescribe. -/
def roundHalfAwayFromZero (q : ℚ) : ℤ :=
  if 0 ≤ q then ⌊q + 1 / 2⌋ else -⌊-q + 1 / 2⌋

/-- The claimed snapped value: the nearest multiple of g with ties rounded
away from zero. -/
def roundHalfAwayMult (v g : ℚ) : ℚ := (roundHalfAwayFromZero (v / g) : ℚ) * g

/-- C4 counterexample: with gridSize 20, setBlockPosition(a,-10,0,true)
stores x = 0 (Math.round rounds the half -1/2 up to 0), while rounding half
away from zero as claimed would store -20. -/
theorem C4_counterexample :
    ((demoEngine.setBlockPosition "a" (-10) 0 true 1).2.getBlock "a").map
      (fun b => b.position.x) = some 0 ∧
    roundHalfAwayMult (-10) 20 = -20 ∧
    (0 : ℚ) ≠ -20 := by
  refine ⟨?_, ?_, by norm_num⟩
  · rw [getBlock_setBlockPosition demoEngine "a" (-10) 0 1 demoBlockA (by decide),
        show demoEngine.settings.gridSize = 20 from rfl, snap_neg10_20]
    rfl
  · rw [roundHalfAwayMult, roundHalfAwayFromZero,
        if_neg (show ¬ (0 : ℚ) ≤ (-10) / 20 from by norm_num),
        show (⌊-((-10 : ℚ) / 20) + 1 / 2⌋ : ℤ) = 1 from by norm_num]
    norm_num

/-- C4 (amended): for an existing block id, setBlockPosition(id,x,y,true)
with gridSize g > 0 succeeds and stores each coordinate as the unique
multiple m of g with m - g/2 ≤ coordinate < m + g/2, that is, the nearest
multiple of g with ties (exact halves) rounded toward positive infinity
(JS Math.round), not away from zero; the positive-coordinate instance
(27,33) ↦ (20,40) of the claim does hold. -/
theorem C4_snap_position_amended :
    (∀ v g : ℚ, 0 < g →
      (∃ m : ℤ, snap v g = m * g) ∧ snap v g - g / 2 ≤ v ∧ v < snap v g + g / 2) ∧
    (∀ (e : BlockEngine) (id : String) (x y : ℚ) (now : Nat) (blk : Block),
      e.getBlock id = some blk →
      (e.setBlockPosition id x y true now).1 = true ∧
      (e.setBlockPosition id x y true now).2.getBlock id =
        some (blk.setPosition (snap x e.settings.gridSize)
          (snap y e.settings.gridSize) now)) ∧
    ((demoEngine.setBlockPosition "a" 27 33 true 1).2.getBlock "a").map
      (fun b => b.position) = some ⟨20, 40⟩ := by
  refine ⟨fun v g hg => snap_interval v g hg, ?_, ?_⟩
  · intro e id x y now blk h
    refine ⟨?_, getBlock_setBlockPosition e id x y now blk h⟩
    rw [setBlockPosition_spec e id x y now blk h]
  · rw [getBlock_setBlockPosition demoEngine "a" 27 33 1 demoBlockA (by decide),
        show demoEngine.settings.gridSize = 20 from rfl, snap_27_20, snap_33_20]
    rfl

/-- C4 amended witness: instantiation of the general clauses at g = 20,
v = 27 and at the fixture store. -/
theorem C4_amended_witness :
    ((∃ m : ℤ, snap 27 20 = m * 20) ∧
      snap 27 20 - 20 / 2 ≤ 27 ∧ (27 : ℚ) < snap 27 20 + 20 / 2) ∧
    (demoEngine.setBlockPosition "a" 27 33 true 1).1 = true ∧
    (demoEngine.setBlockPosition "a" 27 33 true 1).2.getBlock "a" =
      some (demoBlockA.setPosition (snap 27 demoEngine.settings.gridSize)
        (snap 33 demoEngine.settings.gridSize) 1) :=
  ⟨C4_snap_position_amended.1 27 20 (by norm_num),
   C4_snap_position_amended.2.1 demoEngine "a" 27 33 1 demoBlockA (by decide)⟩

theorem createBlock_position_auto (e : BlockEngine) (id content type : String)
    (size : Option Size) (now : Nat) :
    ((e.createBlock id content type none size now).1).position = e.getAutoPosition := by
  cases size <;> rfl

theorem scanFold_no_update (l : List Block) (a : ℚ × ℚ)
    (h : ∀ c ∈ l, ¬ (a.1 < c.position.x)) :
    l.foldl (fun acc b =>
      if b.position.x > acc.1 then (b.position.x, b.position.y) else acc) a = a := by
  induction l generalizing a with
  | nil => rfl
  | cons b l ih =>
    rw [List.foldl_cons, if_neg (h b (List.mem_cons_self b l))]
    exact ih a (fun c hc => h c (List.mem_cons_of_mem b hc))

theorem scanFold_fst_lt (l : List Block) (a : ℚ × ℚ) (k : ℚ)
    (ha : a.1 < k) (h : ∀ c ∈ l, c.position.x < k) :
    (l.foldl (fun acc b =>
      if b.position.x > acc.1 then (b.position.x, b.position.y) else acc) a).1 < k := by
  induction l generalizing a with
  | nil => exact ha
  | cons b l ih =>
    rw [List.foldl_cons]
    by_cases hb : b.position.x > a.1
    · rw [if_pos hb]
      exact ih (b.position.x, b.position.y) (h b (List.mem_cons_self b l))
        (fun c hc => h c (List.mem_cons_of_mem b hc))
    · rw [if_neg hb]
      exact ih a ha (fun c hc => h c (List.mem_cons_of_mem b hc))

theorem scanFold_first_argmax (l1 : List Block) (b : Block) (l2 : List Block)
    (a : ℚ × ℚ) (ha : a.1 < b.position.x)
    (h1 : ∀ c ∈ l1, c.position.x < b.position.x)
    (h2 : ∀ c ∈ l2, c.position.x ≤ b.position.x) :
    (l1 ++ b :: l2).foldl (fun acc c =>
      if c.position.x > acc.1 then (c.position.x, c.position.y) else acc) a =
      (b.position.x, b.position.y) := by
  rw [List.foldl_append, List.foldl_cons]
  have hacc := scanFold_fst_lt l1 a b.position.x ha h1
  rw [if_pos hacc]
  exact scanFold_no_update l2 (b.position.x, b.position.y)
    (fun c hc => not_lt.mpr (h2 c hc))

/-- Two blocks sharing the maximal x = 100; the first scanned has y = 10,
the last scanned has y = 99. -/
def tieBlockFirst : Block :=
  { id := "t1", content := "", type := "default", links := [],
    position := ⟨100, 10⟩, size := ⟨250, 250⟩, metadata := ⟨0, 0⟩ }

/-- The later-scanned block with the same maximal x. -/
def tieBlockLast : Block :=
  { id := "t2", content := "", type := "default", links := [],
    position := ⟨100, 99⟩, size := ⟨250, 250⟩, metadata := ⟨0, 0⟩ }

/-- A store whose two blocks tie on the maximal x coordinate. -/
def tieEngine : BlockEngine :=
  { blocks := [tieBlockFirst, tieBlockLast], settings := ⟨20, 300, 150, 100⟩,
    events := [] }

/-- C3 counterexample: with two blocks both at the maximal x = 100 (y = 10
scanned first, y = 99 scanned last), a block created without a position is
placed at (400, 10): the scan uses a strict comparison, so the FIRST block
with the maximal x supplies y, not the last-scanned one the claim names. -/
theorem C3_counterexample :
    ((tieEngine.createBlock "t3" "" "default" none none 5).1).position = ⟨400, 10⟩ ∧
    ((tieEngine.createBlock "t3" "" "default" none none 5).1).position ≠ ⟨400, 99⟩ := by
  have hpos : ((tieEngine.createBlock "t3" "" "default" none none 5).1).position =
      ⟨400, 10⟩ := by
    rw [createBlock_position_auto, BlockEngine.getAutoPosition,
        show tieEngine.blocks = [] ++ tieBlockFirst :: [tieBlockLast] from rfl,
        if_neg (by simp)]
    rw [scanFold_first_argmax [] tieBlockFirst [tieBlockLast] ((0 : ℚ), (50 : ℚ))
        (by decide) (by simp) (by decide)]
    show (⟨(100 : ℚ) + 300, 10⟩ : Pos) = ⟨400, 10⟩
    rw [show (100 : ℚ) + 300 = 400 from by norm_num]
  refine ⟨hpos, ?_⟩
  rw [hpos]
  decide

/-- C3 (amended): a block created with position omitted goes to (50,50) when
the store is empty; otherwise the scan is seeded with (x,y) = (0,50) and a
block overwrites the running maximum only when its x strictly exceeds it, so
among blocks of equal maximal x the EARLIEST-scanned one supplies y, and
when every block has x ≤ 0 the seed survives and the new block is placed at
(defaultSpacing, 50). -/
theorem C3_auto_placement_amended :
    (∀ (e : BlockEngine) (id content type : String) (size : Option Size) (now : Nat),
      e.blocks = [] →
      ((e.createBlock id content type none size now).1).position = ⟨50, 50⟩) ∧
    (∀ (e : BlockEngine) (id content type : String) (size : Option Size) (now : Nat)
        (l1 : List Block) (b : Block) (l2 : List Block),
      e.blocks = l1 ++ b :: l2 →
      (∀ c ∈ l1, c.position.x < b.position.x) →
      (∀ c ∈ l2, c.position.x ≤ b.position.x) →
      0 < b.position.x →
      ((e.createBlock id content type none size now).1).position =
        ⟨b.position.x + e.settings.defaultSpacing, b.position.y⟩) ∧
    (∀ (e : BlockEngine) (id content type : String) (size : Option Size) (now : Nat),
      e.blocks ≠ [] → (∀ c ∈ e.blocks, c.position.x ≤ 0) →
      ((e.createBlock id content type none size now).1).position =
        ⟨e.settings.defaultSpacing, 50⟩) := by
  refine ⟨?_, ?_, ?_⟩
  · intro e id ct ty s now h
    rw [createBlock_position_auto, BlockEngine.getAutoPosition, h]
    rfl
  · intro e id ct ty s now l1 b l2 he h1 h2 hb
    rw [createBlock_position_auto, BlockEngine.getAutoPosition, he,
        if_neg (by simp)]
    rw [scanFold_first_argmax l1 b l2 ((0 : ℚ), (50 : ℚ)) hb h1 h2]
  · intro e id ct ty s now hne hle
    rw [createBlock_position_auto, BlockEngine.getAutoPosition,
        if_neg (by simpa [List.isEmpty_iff] using hne)]
    rw [scanFold_no_update e.blocks ((0 : ℚ), (50 : ℚ))
        (fun c hc => not_lt.mpr (hle c hc))]
    show (⟨(0 : ℚ) + e.settings.defaultSpacing, (50 : ℚ)⟩ : Pos) = _
    rw [zero_add]

/-- C3 amended witness: instantiation of the first-argmax clause at the tie
fixture, and of the empty-store clause at a fresh engine. -/
theorem C3_amended_witness :
    ((tieEngine.createBlock "t3" "" "default" none none 5).1).position =
      ⟨tieBlockFirst.position.x + tieEngine.settings.defaultSpacing,
        tieBlockFirst.position.y⟩ ∧
    ((BlockEngine.init.createBlock "z" "" "default" none none 0).1).position =
      ⟨50, 50⟩ :=
  ⟨C3_auto_placement_amended.2.1 tieEngine "t3" "" "default" none 5
      [] tieBlockFirst [tieBlockLast] rfl (by simp) (by decide) (by decide),
   C3_auto_placement_amended.1 BlockEngine.init "z" "" "default" none 0 rfl⟩

/-- The anchor-point function exactly as the claim's words describe it:
compare the ratios, pick the left or right edge by the sign of dx when the
horizontal ratio dominates (the claim's sign is the plain plus-or-minus
selector), otherwise the symmetric top or bottom point. -/
def anchorClaim (source target : Rect) : ℚ × ℚ :=
  let scx := source.x + source.w / 2
  let scy := source.y + source.h / 2
  let tcx := target.x + target.w / 2
  let tcy := target.y + target.h / 2
  let dx := tcx - scx
  let dy := tcy - scy
  if |dx| / source.w > |dy| / source.h then
    let s : ℚ := if dx > 0 then 1 else -1
    (scx + s * (source.w / 2), scy + dy * (s * (source.w / 2)) / dx)
  else
    let s : ℚ := if dy > 0 then 1 else -1
    (scx + dx * (s * (source.h / 2)) / dy, scy + s * (source.h / 2))

/-- C9: for rectangles of positive width and height with distinct centers,
getConnectionPoint computes exactly the ratio-comparing edge-crossing
formula of the claim, and on A = (0,0,100,100), B = (300,0,100,100) it
returns (100,50), the midpoint of the right edge of A. -/
theorem C9_connection_point :
    (∀ s t : Rect, 0 < s.w → 0 < s.h →
      ¬(s.x + s.w / 2 = t.x + t.w / 2 ∧ s.y + s.h / 2 = t.y + t.h / 2) →
      getConnectionPoint s t = anchorClaim s t) ∧
    getConnectionPoint ⟨0, 0, 100, 100⟩ ⟨300, 0, 100, 100⟩ = (100, 50) := by
  constructor
  · intro s t hw hh hcent
    rw [getConnectionPoint, anchorClaim]
    by_cases hdom : |t.x + t.w / 2 - (s.x + s.w / 2)| / s.w >
        |t.y + t.h / 2 - (s.y + s.h / 2)| / s.h
    · have habs : (0 : ℚ) ≤ |t.y + t.h / 2 - (s.y + s.h / 2)| / s.h :=
        div_nonneg (abs_nonneg _) hh.le
      have hdxpos : 0 < |t.x + t.w / 2 - (s.x + s.w / 2)| := by
        by_contra hc
        have h0 : |t.x + t.w / 2 - (s.x + s.w / 2)| = 0 :=
          le_antisymm (not_lt.mp hc) (abs_nonneg _)
        rw [h0, zero_div] at hdom
        exact absurd (lt_of_le_of_lt habs hdom) (lt_irrefl 0)
      have hdxne : t.x + t.w / 2 - (s.x + s.w / 2) ≠ 0 := fun hc => by
        rw [hc, abs_zero] at hdxpos
        exact lt_irrefl 0 hdxpos
      have hsg : jsSign (t.x + t.w / 2 - (s.x + s.w / 2)) =
          if t.x + t.w / 2 - (s.x + s.w / 2) > 0 then (1 : ℚ) else -1 := by
        by_cases hp : t.x + t.w / 2 - (s.x + s.w / 2) > 0
        · rw [jsSign, if_pos hp, if_pos hp]
        · have hlt : t.x + t.w / 2 - (s.x + s.w / 2) < 0 :=
            lt_of_le_of_ne (not_lt.mp hp) hdxne
          rw [jsSign, if_neg hp, if_pos hlt, if_neg hp]
      rw [if_pos hdom, if_pos hdom, hsg]
      simp only [mul_div_assoc]
    · have hdyne : t.y + t.h / 2 - (s.y + s.h / 2) ≠ 0 := by
        intro hc
        have h0 : |t.y + t.h / 2 - (s.y + s.h / 2)| / s.h = 0 := by
          rw [hc, abs_zero, zero_div]
        rw [h0] at hdom
        have hx0 : |t.x + t.w / 2 - (s.x + s.w / 2)| = 0 := by
          have hle := not_lt.mp hdom
          have : |t.x + t.w / 2 - (s.x + s.w / 2)| / s.w = 0 :=
            le_antisymm hle (div_nonneg (abs_nonneg _) hw.le)
          have := (div_eq_zero_iff.mp this).resolve_right (ne_of_gt hw)
          exact this
        have hxeq : s.x + s.w / 2 = t.x + t.w / 2 := by
          have := abs_eq_zero.mp hx0
          linarith [sub_eq_zero.mp this]
        have hyeq : s.y + s.h / 2 = t.y + t.h / 2 := by
          linarith [sub_eq_zero.mp hc]
        exact hcent ⟨hxeq, hyeq⟩
      have hsg : jsSign (t.y + t.h / 2 - (s.y + s.h / 2)) =
          if t.y + t.h / 2 - (s.y + s.h / 2) > 0 then (1 : ℚ) else -1 := by
        by_cases hp : t.y + t.h / 2 - (s.y + s.h / 2) > 0
        · rw [jsSign, if_pos hp, if_pos hp]
        · have hlt : t.y + t.h / 2 - (s.y + s.h / 2) < 0 :=
            lt_of_le_of_ne (not_lt.mp hp) hdyne
          rw [jsSign, if_neg hp, if_pos hlt, if_neg hp]
      rw [if_neg hdom, if_neg hdom, hsg]
      simp only [mul_div_assoc]
  · rw [getConnectionPoint]
    norm_num [jsSign]

/-- C9 witness: the instance rectangles satisfy the hypotheses and the code
function agrees with the claim's formula there, yielding (100,50). -/
theorem C9_witness :
    getConnectionPoint ⟨0, 0, 100, 100⟩ ⟨300, 0, 100, 100⟩ =
      anchorClaim ⟨0, 0, 100, 100⟩ ⟨300, 0, 100, 100⟩ :=
  C9_connection_point.1 ⟨0, 0, 100, 100⟩ ⟨300, 0, 100, 100⟩ (by norm_num) (by norm_num)
    (fun h => absurd h.1 (by norm_num))

/-- C8: importFromJSON returns false on a JSON parse failure (thrown before
the store is touched) and on a malformed blocks field; because the store is
cleared before the blocks field is read, a document that parses but whose
blocks field is absent or not an array leaves the store with no blocks
rather than with its previous contents. -/
theorem C8_import_clears_before_validation :
    (∀ (e : BlockEngine) (now : Nat),
      e.importFromJSON ImportInput.parseError now = (false, e)) ∧
    (∀ (e : BlockEngine) (d : JsonDoc) (now : Nat),
      d.blocks = BlocksField.missing ∨ d.blocks = BlocksField.notArray →
      (e.importFromJSON (ImportInput.parsed d) now).1 = false ∧
      (e.importFromJSON (ImportInput.parsed d) now).2.blocks = []) := by
  refine ⟨fun e now => rfl, ?_⟩
  intro e d now h
  rcases h with h | h <;>
    (rw [BlockEngine.importFromJSON, h]; exact ⟨rfl, rfl⟩)

/-- A document that parses as JSON but carries no blocks array. -/
def malformedDoc : JsonDoc :=
  { blocks := BlocksField.missing, settings := none, exportedAt := 0 }

/-- C8 witness: on the two-block fixture store, the parse-failure input
leaves the store untouched and returns false, while a parsed document with a
missing blocks field returns false with the store emptied. -/
theorem C8_witness :
    demoEngine.importFromJSON ImportInput.parseError 0 = (false, demoEngine) ∧
    (demoEngine.importFromJSON (ImportInput.parsed malformedDoc) 0).1 = false ∧
    (demoEngine.importFromJSON (ImportInput.parsed malformedDoc) 0).2.blocks = [] :=
  ⟨C8_import_clears_before_validation.1 demoEngine 0,
   C8_import_clears_before_validation.2 demoEngine malformedDoc 0 (Or.inl rfl)⟩

/-- Recognizer for the legacy bare-string link shape. -/
def JsonLink.isStr : JsonLink → Bool
  | JsonLink.str _ => true
  | JsonLink.obj _ _ _ => false

theorem import_blocks_eq (e : BlockEngine) (d : JsonDoc) (records : List JsonBlock)
    (now : Nat) (hd : d.blocks = BlocksField.arr records) :
    (e.importFromJSON (ImportInput.parsed d) now).2.blocks =
      records.foldl (fun acc bd => storeSet acc (importBlock now bd)) [] := by
  rw [BlockEngine.importFromJSON, hd]

theorem import_fst_eq (e : BlockEngine) (d : JsonDoc) (records : List JsonBlock)
    (now : Nat) (hd : d.blocks = BlocksField.arr records) :
    (e.importFromJSON (ImportInput.parsed d) now).1 = true := by
  rw [BlockEngine.importFromJSON, hd]

theorem importLinks_all_single (now : Nat) (ls : List JsonLink)
    (hstr : ∀ l ∈ ls, l.isStr = true) :
    ∀ acc, (∀ p ∈ acc, p.2.type = "single") →
      ∀ p ∈ ls.foldl (importLink now) acc, p.2.type = "single" := by
  induction ls with
  | nil => exact fun acc hacc p hp => hacc p hp
  | cons l ls ih =>
    intro acc hacc p hp
    rw [List.foldl_cons] at hp
    cases l with
    | obj i t c => exact absurd (hstr _ (List.mem_cons_self _ _)) (by simp [JsonLink.isStr])
    | str i =>
      refine ih (fun l' hl' => hstr l' (List.mem_cons_of_mem _ hl'))
        (mapSet acc i ⟨"single", some now⟩) ?_ p hp
      intro q hq
      rcases mem_mapSet acc i _ q hq with h | h
      · rw [h]
      · exact hacc q h

theorem mem_foldl_storeSet (records : List JsonBlock) (now : Nat) (acc : List Block)
    (b' : Block)
    (h : b' ∈ records.foldl (fun a bd => storeSet a (importBlock now bd)) acc) :
    b' ∈ acc ∨ ∃ bd ∈ records, b' = importBlock now bd := by
  induction records generalizing acc with
  | nil => exact Or.inl h
  | cons bd records ih =>
    rw [List.foldl_cons] at h
    rcases ih (storeSet acc (importBlock now bd)) h with h' | h'
    · rcases mem_storeSet _ _ _ h' with h'' | h''
      · exact Or.inr ⟨bd, List.mem_cons_self _ _, h''⟩
      · exact Or.inl h''
    · obtain ⟨bd1, hm, he⟩ := h'
      exact Or.inr ⟨bd1, List.mem_cons_of_mem _ hm, he⟩

/-- C7 (amended): importFromJSON accepts both link shapes — a bare id string
becomes an edge of type "single" stamped at import time, and an object keeps
its type when that type is present and non-empty, defaulting to "single"
when the type field is absent OR falsy (the empty string), with its
createdAt copied verbatim; a document whose links arrays are plain lists of
id strings imports every entry as type "single". -/
theorem C7_import_link_shapes_amended :
    (∀ (now : Nat) (acc : List (String × LinkMeta)) (id : String),
      mapGet (importLink now acc (JsonLink.str id)) id = some ⟨"single", some now⟩) ∧
    (∀ (now : Nat) (acc : List (String × LinkMeta)) (id t : String) (c : Option Nat),
      t ≠ "" →
      mapGet (importLink now acc (JsonLink.obj id (some t) c)) id = some ⟨t, c⟩) ∧
    (∀ (now : Nat) (acc : List (String × LinkMeta)) (id : String) (c : Option Nat),
      mapGet (importLink now acc (JsonLink.obj id none c)) id = some ⟨"single", c⟩) ∧
    (∀ (now : Nat) (acc : List (String × LinkMeta)) (id : String) (c : Option Nat),
      mapGet (importLink now acc (JsonLink.obj id (some "") c)) id =
        some ⟨"single", c⟩) ∧
    (∀ (e : BlockEngine) (d : JsonDoc) (records : List JsonBlock) (now : Nat),
      d.blocks = BlocksField.arr records →
      (∀ bd ∈ records, ∀ l ∈ bd.links.getD [], l.isStr = true) →
      (e.importFromJSON (ImportInput.parsed d) now).1 = true ∧
      ∀ b' ∈ (e.importFromJSON (ImportInput.parsed d) now).2.blocks,
        ∀ p ∈ b'.links, p.2.type = "single") := by
  refine ⟨?_, ?_, ?_, ?_, ?_⟩
  · intro now acc id
    exact mapGet_mapSet_self acc id _
  · intro now acc id t c ht
    show mapGet (mapSet acc id ⟨if t = "" then "single" else t, c⟩) id = some ⟨t, c⟩
    rw [if_neg ht]
    exact mapGet_mapSet_self acc id _
  · intro now acc id c
    exact mapGet_mapSet_self acc id _
  · intro now acc id c
    show mapGet (mapSet acc id ⟨if "" = "" then "single" else "", c⟩) id =
      some ⟨"single", c⟩
    rw [if_pos rfl]
    exact mapGet_mapSet_self acc id _
  · intro e d records now hd hstr
    refine ⟨import_fst_eq e d records now hd, ?_⟩
    intro b' hb' p hp
    rw [import_blocks_eq e d records now hd] at hb'
    rcases mem_foldl_storeSet records now [] b' hb' with h | h
    · simp at h
    · obtain ⟨bd, hbd, rfl⟩ := h
      exact importLinks_all_single now (bd.links.getD []) (hstr bd hbd) [] (by simp) p hp

/-- A parsed document whose single block carries one modern-format link
entry whose type field is present but is the empty string. -/
def emptyTypeDoc : JsonDoc :=
  { blocks := BlocksField.arr
      [{ id := "a", content := some "A", type := some "default",
         links := some [JsonLink.obj "b" (some "") none],
         position := none, size := none, metadata := ⟨0, 0⟩ }],
    settings := none, exportedAt := 0 }

/-- C7 counterexample: a links entry in object shape whose type field is the
empty string is NOT kept: the import stores type "single" for it, because
the code defaults on any falsy type value, not only on an absent one. -/
theorem C7_counterexample :
    linkTypeOf (BlockEngine.init.importFromJSON
      (ImportInput.parsed emptyTypeDoc) 1).2 "a" "b" = some "single" ∧
    some "single" ≠ some ("" : String) := by decide

/-- A parsed document whose single block carries a legacy plain-string links
array. -/
def legacyDoc : JsonDoc :=
  { blocks := BlocksField.arr
      [{ id := "a", content := some "A", type := some "default",
         links := some [JsonLink.str "b", JsonLink.str "c"],
         position := none, size := none, metadata := ⟨0, 0⟩ }],
    settings := none, exportedAt := 0 }

/-- C7 amended witness: concrete instantiations of every clause — the legacy
string shape, the kept non-empty type, the absent type, the empty-string
type, and the all-legacy document import. -/
theorem C7_amended_witness :
    mapGet (importLink 7 [] (JsonLink.str "x")) "x" = some ⟨"single", some 7⟩ ∧
    mapGet (importLink 7 [] (JsonLink.obj "x" (some "double") (some 3))) "x" =
      some ⟨"double", some 3⟩ ∧
    mapGet (importLink 7 [] (JsonLink.obj "x" none (some 3))) "x" =
      some ⟨"single", some 3⟩ ∧
    mapGet (importLink 7 [] (JsonLink.obj "x" (some "") none)) "x" =
      some ⟨"single", none⟩ ∧
    (BlockEngine.init.importFromJSON (ImportInput.parsed legacyDoc) 1).1 = true :=
  ⟨C7_import_link_shapes_amended.1 7 [] "x",
   C7_import_link_shapes_amended.2.1 7 [] "x" "double" (some 3) (by decide),
   C7_import_link_shapes_amended.2.2.1 7 [] "x" (some 3),
   C7_import_link_shapes_amended.2.2.2.1 7 [] "x" none,
   (C7_import_link_shapes_amended.2.2.2.2 BlockEngine.init legacyDoc
      [{ id := "a", content := some "A", type := some "default",
         links := some [JsonLink.str "b", JsonLink.str "c"],
         position := none, size := none, metadata := ⟨0, 0⟩ }] 1
      rfl (by decide)).1⟩

/-- The id k names a block of the store list. -/
def idPresent (bs : List Block) (k : String) : Prop :=
  k ∈ bs.map (fun b => b.id)

/-- Every link entry of every block targets an id present in the list. -/
def noDanglingL (bs : List Block) : Prop :=
  ∀ b ∈ bs, ∀ p ∈ b.links, idPresent bs p.1

/-- The store has no dangling link entries. -/
def noDangling (e : BlockEngine) : Prop := noDanglingL e.blocks

instance (bs : List Block) (k : String) : Decidable (idPresent bs k) := by
  unfold idPresent
  infer_instance

instance (bs : List Block) : Decidable (noDanglingL bs) := by
  unfold noDanglingL
  infer_instance

instance (e : BlockEngine) : Decidable (noDangling e) := by
  unfold noDangling
  infer_instance

theorem removeLink_links (c : Block) (k : String) (now : Nat) :
    (c.removeLink k now).links = mapDelete c.links k := rfl

theorem addLink_links (c : Block) (k lt : String) (now : Nat) :
    (c.addLink k lt now).links = mapSet c.links k ⟨lt, some now⟩ := rfl

theorem idPresent_modify (bs : List Block) (id : String) (f : Block → Block)
    (hf : ∀ c, (f c).id = c.id) (k : String) :
    idPresent (modifyBlock bs id f) k ↔ idPresent bs k := by
  rw [idPresent, idPresent, ids_modifyBlock bs id f hf]

theorem idPresent_of_getBlock (e : BlockEngine) (id : String) (blk : Block)
    (h : e.getBlock id = some blk) : idPresent e.blocks id := by
  have hmem : blk ∈ e.blocks := List.mem_of_find?_eq_some h
  have hpred := List.find?_some h
  rw [idPresent]
  exact List.mem_map.mpr ⟨blk, hmem, by simpa using hpred⟩

theorem noDanglingL_modify_removeLink (bs : List Block) (id k : String) (now : Nat)
    (h : noDanglingL bs) :
    noDanglingL (modifyBlock bs id (fun c => c.removeLink k now)) := by
  intro b' hb' p hp
  rw [idPresent, ids_modifyBlock bs id (fun c => c.removeLink k now) (fun c => rfl)]
  obtain ⟨c, hc, hbc⟩ := mem_modifyBlock bs id _ b' hb'
  rcases hbc with h1 | h1
  · rw [h1] at hp
    exact h c hc p hp
  · rw [h1, removeLink_links] at hp
    exact h c hc p (mem_mapDelete c.links k p hp).1

theorem noDanglingL_modify_addLink (bs : List Block) (id k lt : String) (now : Nat)
    (hk : idPresent bs k) (h : noDanglingL bs) :
    noDanglingL (modifyBlock bs id (fun c => c.addLink k lt now)) := by
  intro b' hb' p hp
  rw [idPresent, ids_modifyBlock bs id (fun c => c.addLink k lt now) (fun c => rfl)]
  obtain ⟨c, hc, hbc⟩ := mem_modifyBlock bs id _ b' hb'
  rcases hbc with h1 | h1
  · rw [h1] at hp
    exact h c hc p hp
  · rw [h1, addLink_links] at hp
    rcases mem_mapSet c.links k _ p hp with hpk | hpl
    · rw [hpk]
      exact hk
    · exact h c hc p hpl

theorem noDanglingL_storeSet_empty_links (bs : List Block) (b : Block)
    (hb : b.links = []) (h : noDanglingL bs) : noDanglingL (storeSet bs b) := by
  intro b' hb' p hp
  rcases mem_storeSet bs b b' hb' with rfl | hmem
  · rw [hb] at hp
    simp at hp
  · exact ids_storeSet_superset bs b p.1 (h b' hmem p hp)

theorem createBlock_blocks (e : BlockEngine) (id content type : String)
    (pos : Option Pos) (s : Option Size) (now : Nat) :
    (e.createBlock id content type pos s now).2.blocks =
      storeSet e.blocks (e.createBlock id content type pos s now).1 := by
  cases pos <;> cases s <;> rfl

theorem createBlock_links_nil (e : BlockEngine) (id content type : String)
    (pos : Option Pos) (s : Option Size) (now : Nat) :
    (e.createBlock id content type pos s now).1.links = [] := by
  cases pos <;> cases s <;> rfl

theorem noDangling_createBlock (e : BlockEngine) (id content type : String)
    (pos : Option Pos) (s : Option Size) (now : Nat) (h : noDangling e) :
    noDangling (e.createBlock id content type pos s now).2 := by
  show noDanglingL (e.createBlock id content type pos s now).2.blocks
  rw [createBlock_blocks]
  exact noDanglingL_storeSet_empty_links e.blocks _
    (createBlock_links_nil e id content type pos s now) h

theorem noDangling_linkBlocks (e : BlockEngine) (a b t : String) (now : Nat)
    (h : noDangling e) : noDangling (e.linkBlocks a b t now).2 := by
  cases ha : e.getBlock a with
  | none =>
    cases hb : e.getBlock b with
    | none =>
      rw [show e.linkBlocks a b t now = (false, e) from by
        rw [BlockEngine.linkBlocks, ha, hb]]
      exact h
    | some tb =>
      rw [show e.linkBlocks a b t now = (false, e) from by
        rw [BlockEngine.linkBlocks, ha, hb]]
      exact h
  | some fb =>
    cases hb : e.getBlock b with
    | none =>
      rw [show e.linkBlocks a b t now = (false, e) from by
        rw [BlockEngine.linkBlocks, ha, hb]]
      exact h
    | some tb =>
      have hpa := idPresent_of_getBlock e a fb ha
      have hpb := idPresent_of_getBlock e b tb hb
      have hnd2 : noDanglingL (modifyBlock (modifyBlock e.blocks
          a (fun c => c.removeLink b now)) b (fun c => c.removeLink a now)) :=
        noDanglingL_modify_removeLink _ b a now
          (noDanglingL_modify_removeLink _ a b now h)
      have hpa2 : idPresent (modifyBlock (modifyBlock e.blocks
          a (fun c => c.removeLink b now)) b (fun c => c.removeLink a now)) a := by
        rw [idPresent_modify _ b (fun c => c.removeLink a now) (fun c => rfl) a,
            idPresent_modify _ a (fun c => c.removeLink b now) (fun c => rfl) a]
        exact hpa
      have hpb2 : idPresent (modifyBlock (modifyBlock e.blocks
          a (fun c => c.removeLink b now)) b (fun c => c.removeLink a now)) b := by
        rw [idPresent_modify _ b (fun c => c.removeLink a now) (fun c => rfl) b,
            idPresent_modify _ a (fun c => c.removeLink b now) (fun c => rfl) b]
        exact hpb
      by_cases h1 : t = "single"
      · subst h1
        show noDanglingL (e.linkBlocks a b "single" now).2.blocks
        rw [blocks_linkBlocks_single e a b now fb tb ha hb]
        exact noDanglingL_modify_addLink _ a b "single" now hpb2 hnd2
      · by_cases h2 : t = "reverse"
        · subst h2
          show noDanglingL (e.linkBlocks a b "reverse" now).2.blocks
          rw [blocks_linkBlocks_reverse e a b now fb tb ha hb]
          exact noDanglingL_modify_addLink _ b a "single" now hpa2 hnd2
        · by_cases h3 : t = "double"
          · subst h3
            show noDanglingL (e.linkBlocks a b "double" now).2.blocks
            rw [blocks_linkBlocks_double e a b now fb tb ha hb]
            refine noDanglingL_modify_addLink _ b a "double" now ?_ ?_
            · rw [idPresent_modify _ a (fun c => c.addLink b "double" now)
                  (fun c => rfl) a]
              exact hpa2
            · exact noDanglingL_modify_addLink _ a b "double" now hpb2 hnd2
          · show noDanglingL (e.linkBlocks a b t now).2.blocks
            rw [blocks_linkBlocks_unknown e a b t now fb tb ha hb h1 h2 h3]
            exact hnd2

theorem noDangling_updateLinkType (e : BlockEngine) (a b t : String) (now : Nat)
    (h : noDangling e) : noDangling (e.updateLinkType a b t now).2 :=
  noDangling_linkBlocks e a b t now h

theorem noDanglingL_ite_modify_rm (bs : List Block) (cond : Bool) (id k : String)
    (now : Nat) (h : noDanglingL bs) :
    noDanglingL (if cond = true
      then modifyBlock bs id (fun c => c.removeLink k now) else bs) := by
  by_cases hc : cond = true
  · rw [if_pos hc]
    exact noDanglingL_modify_removeLink bs id k now h
  · rw [if_neg hc]
    exact h

theorem noDangling_unlinkBlocks (e : BlockEngine) (a b : String) (now : Nat)
    (h : noDangling e) : noDangling (e.unlinkBlocks a b now).2 := by
  rw [BlockEngine.unlinkBlocks]
  by_cases hcond : ((e.getBlock a).isNone && (e.getBlock b).isNone) = true
  · rw [if_pos hcond]
    exact h
  · rw [if_neg hcond]
    exact noDanglingL_ite_modify_rm _ (e.getBlock b).isSome b a now
      (noDanglingL_ite_modify_rm _ (e.getBlock a).isSome a b now h)

theorem blocks_deleteBlock (e : BlockEngine) (id : String) (now : Nat) (blk : Block)
    (h : e.getBlock id = some blk) :
    (e.deleteBlock id now).2.blocks =
      (e.blocks.map (fun b => if b.hasLink id then b.removeLink id now else b)).filter
        (fun b => !(b.id == id)) := by
  rw [BlockEngine.deleteBlock, h]

theorem noDangling_deleteBlock (e : BlockEngine) (id : String) (now : Nat)
    (h : noDangling e) : noDangling (e.deleteBlock id now).2 := by
  cases hg : e.getBlock id with
  | none =>
    rw [show e.deleteBlock id now = (false, e) from by rw [BlockEngine.deleteBlock, hg]]
    exact h
  | some blk =>
    show noDanglingL (e.deleteBlock id now).2.blocks
    rw [blocks_deleteBlock e id now blk hg]
    intro b' hb' p hp
    have hmf := List.mem_filter.mp hb'
    obtain ⟨c, hc, hce⟩ := List.mem_map.mp hmf.1
    have hpc : p ∈ c.links ∧ p.1 ≠ id := by
      rw [← hce] at hp
      by_cases hcl : c.hasLink id = true
      · rw [if_pos hcl, removeLink_links] at hp
        exact mem_mapDelete c.links id p hp
      · rw [if_neg hcl] at hp
        refine ⟨hp, ?_⟩
        have hnone : mapGet c.links id = none := by
          rw [Block.hasLink] at hcl
          cases hgc : mapGet c.links id with
          | none => rfl
          | some v => rw [hgc] at hcl; exact absurd rfl hcl
        exact (mapGet_eq_none_iff c.links id).mp hnone p hp
    obtain ⟨d, hd, hdid⟩ := List.mem_map.mp (h c hc p hpc.1)
    have hpid : (if d.hasLink id = true then d.removeLink id now else d).id = d.id := by
      by_cases hdl : d.hasLink id = true
      · rw [if_pos hdl]
        rfl
      · rw [if_neg hdl]
    rw [idPresent]
    refine List.mem_map.mpr
      ⟨if d.hasLink id = true then d.removeLink id now else d, ?_, ?_⟩
    · refine List.mem_filter.mpr ⟨List.mem_map.mpr ⟨d, hd, rfl⟩, ?_⟩
      rw [hpid]
      simp only [Bool.not_eq_true', beq_eq_false_iff_ne, ne_eq]
      rw [hdid]
      exact hpc.2
    · rw [hpid, hdid]

theorem deleteBlock_purges (e : BlockEngine) (id : String) (now : Nat)
    (hsucc : (e.deleteBlock id now).1 = true) :
    ∀ b' ∈ (e.deleteBlock id now).2.blocks, b'.hasLink id = false := by
  cases hg : e.getBlock id with
  | none =>
    rw [show e.deleteBlock id now = (false, e) from by
      rw [BlockEngine.deleteBlock, hg]] at hsucc
    exact absurd hsucc (by simp)
  | some blk =>
    intro b' hb'
    rw [blocks_deleteBlock e id now blk hg] at hb'
    obtain ⟨c, hc, hce⟩ := List.mem_map.mp (List.mem_filter.mp hb').1
    rw [← hce]
    by_cases hcl : c.hasLink id = true
    · rw [if_pos hcl, Block.hasLink, removeLink_links, mapGet_mapDelete_self]
      rfl
    · rw [if_neg hcl]
      cases hcb : c.hasLink id with
      | false => rfl
      | true => exact absurd hcb hcl

/-- A parsed document whose only block links to an id that names no block in
the document. -/
def ghostDoc : JsonDoc :=
  { blocks := BlocksField.arr
      [{ id := "a", content := some "A", type := some "default",
         links := some [JsonLink.str "ghost"],
         position := none, size := none, metadata := ⟨0, 0⟩ }],
    settings := none, exportedAt := 0 }

/-- C2 counterexample: importFromJSON performs no link-target validation, so
importing a document whose only block links to the absent id "ghost"
succeeds (returns true) and leaves a dangling entry in the store. -/
theorem C2_counterexample :
    (BlockEngine.init.importFromJSON (ImportInput.parsed ghostDoc) 1).1 = true ∧
    ¬ noDangling (BlockEngine.init.importFromJSON (ImportInput.parsed ghostDoc) 1).2 := by
  decide

/-- C2 (amended): createBlock, linkBlocks, updateLinkType, unlinkBlocks and
deleteBlock each preserve the no-dangling invariant, and after a successful
deleteBlock(X) no remaining block's links table contains X; importFromJSON
is excluded: it does not validate link targets and can leave dangling
entries. -/
theorem C2_no_dangling_amended :
    (∀ (e : BlockEngine) (id content type : String) (pos : Option Pos)
        (s : Option Size) (now : Nat), noDangling e →
      noDangling (e.createBlock id content type pos s now).2) ∧
    (∀ (e : BlockEngine) (a b t : String) (now : Nat), noDangling e →
      noDangling (e.linkBlocks a b t now).2) ∧
    (∀ (e : BlockEngine) (a b t : String) (now : Nat), noDangling e →
      noDangling (e.updateLinkType a b t now).2) ∧
    (∀ (e : BlockEngine) (a b : String) (now : Nat), noDangling e →
      noDangling (e.unlinkBlocks a b now).2) ∧
    (∀ (e : BlockEngine) (id : String) (now : Nat), noDangling e →
      noDangling (e.deleteBlock id now).2) ∧
    (∀ (e : BlockEngine) (id : String) (now : Nat),
      (e.deleteBlock id now).1 = true →
      ∀ b' ∈ (e.deleteBlock id now).2.blocks, b'.hasLink id = false) :=
  ⟨fun e id c t p s now h => noDangling_createBlock e id c t p s now h,
   fun e a b t now h => noDangling_linkBlocks e a b t now h,
   fun e a b t now h => noDangling_updateLinkType e a b t now h,
   fun e a b now h => noDangling_unlinkBlocks e a b now h,
   fun e id now h => noDangling_deleteBlock e id now h,
   fun e id now h => deleteBlock_purges e id now h⟩

/-- C2 amended witness: the fixture store satisfies the invariant and each
clause instantiates on it; the purge clause is checked on the surviving
block after deleting "a". -/
theorem C2_amended_witness :
    noDangling (demoEngine.createBlock "c" "" "default" none none 3).2 ∧
    noDangling (demoEngine.linkBlocks "a" "b" "double" 3).2 ∧
    noDangling (demoEngine.updateLinkType "a" "b" "single" 3).2 ∧
    noDangling (demoEngine.unlinkBlocks "a" "b" 3).2 ∧
    noDangling (demoEngine.deleteBlock "a" 3).2 ∧
    demoBlockB.hasLink "a" = false :=
  ⟨C2_no_dangling_amended.1 demoEngine "c" "" "default" none none 3 (by decide),
   C2_no_dangling_amended.2.1 demoEngine "a" "b" "double" 3 (by decide),
   C2_no_dangling_amended.2.2.1 demoEngine "a" "b" "single" 3 (by decide),
   C2_no_dangling_amended.2.2.2.1 demoEngine "a" "b" 3 (by decide),
   C2_no_dangling_amended.2.2.2.2.1 demoEngine "a" 3 (by decide),
   C2_no_dangling_amended.2.2.2.2.2 demoEngine "a" 3 (by decide) demoBlockB (by decide)⟩

/-- Store invariants that the JS Map representation enforces automatically
and the link operations maintain: link keys within a block are unique, every
stored edge type is "single" or "double" (the spec's own invariant), and
block ids are unique. -/
def wfBlock (b : Block) : Prop :=
  (b.links.map (fun p => p.1)).Nodup ∧
  ∀ p ∈ b.links, p.2.type = "single" ∨ p.2.type = "double"

/-- Well-formedness of a whole store. -/
def wfEngine (e : BlockEngine) : Prop :=
  (e.blocks.map (fun b => b.id)).Nodup ∧ ∀ b ∈ e.blocks, wfBlock b

instance (b : Block) : Decidable (wfBlock b) := by
  unfold wfBlock
  infer_instance

instance (e : BlockEngine) : Decidable (wfEngine e) := by
  unfold wfEngine
  infer_instance

theorem importLinks_roundTrip (now : Nat) (l acc : List (String × LinkMeta))
    (hdisj : ∀ p ∈ l, ∀ q ∈ acc, p.1 ≠ q.1)
    (hnodup : (l.map (fun p => p.1)).Nodup)
    (htype : ∀ p ∈ l, p.2.type ≠ "") :
    (l.map (fun p => JsonLink.obj p.1 (some p.2.type) p.2.createdAt)).foldl
      (importLink now) acc = acc ++ l := by
  induction l generalizing acc with
  | nil => simp
  | cons p l ih =>
    rw [List.map_cons, List.foldl_cons]
    rw [List.map_cons] at hnodup
    obtain ⟨hnotin, hnodup1⟩ := List.nodup_cons.mp hnodup
    have hstep : importLink now acc (JsonLink.obj p.1 (some p.2.type) p.2.createdAt) =
        acc ++ [p] := by
      show mapSet acc p.1 ⟨if p.2.type = "" then "single" else p.2.type, p.2.createdAt⟩
        = acc ++ [p]
      rw [if_neg (htype p (List.mem_cons_self p l)),
          mapSet_of_absent acc p.1 _
            (fun q hq => fun hc => hdisj p (List.mem_cons_self p l) q hq hc.symm)]
    rw [hstep, ih (acc ++ [p]) ?_ hnodup1
          (fun q hq => htype q (List.mem_cons_of_mem p hq)),
        List.append_assoc]
    · rfl
    · intro p' hp' q hq
      rcases List.mem_append.mp hq with h | h
      · exact hdisj p' (List.mem_cons_of_mem p hp') q h
      · rw [List.mem_singleton.mp h]
        intro hc
        exact hnotin (hc ▸ List.mem_map.mpr ⟨p', hp', rfl⟩)

theorem importBlock_toJSON (now : Nat) (b : Block) (hb : wfBlock b) :
    importBlock now (Block.toJSON b) = b := by
  obtain ⟨hnodup, htypes⟩ := hb
  have htype : ∀ p ∈ b.links, p.2.type ≠ "" := by
    intro p hp
    rcases htypes p hp with h | h <;> rw [h] <;> decide
  cases b with
  | mk id content type links position size metadata =>
    simp only [Block.toJSON, importBlock, Option.getD_some]
    congr 1
    rw [importLinks_roundTrip now links [] (by simp) (by simpa using hnodup)
        (by simpa using htype)]
    rfl

theorem import_export_blocks (now : Nat) (bs acc : List Block)
    (hdisj : ∀ b ∈ bs, ∀ c ∈ acc, b.id ≠ c.id)
    (hnodup : (bs.map (fun b => b.id)).Nodup)
    (hwf : ∀ b ∈ bs, wfBlock b) :
    (bs.map Block.toJSON).foldl (fun a bd => storeSet a (importBlock now bd)) acc =
      acc ++ bs := by
  induction bs generalizing acc with
  | nil => simp
  | cons b bs ih =>
    rw [List.map_cons, List.foldl_cons, importBlock_toJSON now b
      (hwf b (List.mem_cons_self b bs))]
    rw [List.map_cons] at hnodup
    obtain ⟨hnotin, hnodup1⟩ := List.nodup_cons.mp hnodup
    have hset : storeSet acc b = acc ++ [b] := by
      rw [storeSet]
      have hany : (acc.any (fun c => c.id == b.id)) = false := by
        rw [List.any_eq_false]
        intro c hc
        simp only [beq_iff_eq]
        exact fun hc2 => hdisj b (List.mem_cons_self b bs) c hc hc2.symm
      rw [if_neg (by rw [hany]; exact Bool.false_ne_true)]
    rw [hset, ih (acc ++ [b]) ?_ hnodup1
          (fun c hc => hwf c (List.mem_cons_of_mem b hc)),
        List.append_assoc]
    · rfl
    · intro b' hb' c hc
      rcases List.mem_append.mp hc with h | h
      · exact hdisj b' (List.mem_cons_of_mem b hb') c h
      · rw [List.mem_singleton.mp h]
        intro hc2
        exact hnotin (hc2 ▸ List.mem_map.mpr ⟨b', hb', rfl⟩)

/-- C6: importing the document produced by exportToJSON succeeds and rebuilds
the block list EXACTLY (same ids, content, types, link targets and types and
createdAt stamps, positions, sizes, and even metadata, which is copied
verbatim), for every store satisfying the Map-representation invariants
(unique block ids, unique link keys, stored edge types "single"/"double");
the claimed identity modulo updatedAt/exportedAt follows. -/
theorem C6_round_trip (e : BlockEngine) (now now2 : Nat) (hwf : wfEngine e) :
    (e.importFromJSON (ImportInput.parsed (e.exportToJSON now)) now2).1 = true ∧
    (e.importFromJSON (ImportInput.parsed (e.exportToJSON now)) now2).2.blocks =
      e.blocks := by
  have hd : (e.exportToJSON now).blocks = BlocksField.arr (e.blocks.map Block.toJSON) :=
    rfl
  refine ⟨import_fst_eq e _ _ now2 hd, ?_⟩
  rw [import_blocks_eq e _ (e.blocks.map Block.toJSON) now2 hd,
      import_export_blocks now2 e.blocks [] (by simp) hwf.1 hwf.2]
  rfl

/-- C6 witness: round trip on the fixture store carrying a double edge. -/
theorem C6_witness :
    ((demoEngine.linkBlocks "a" "b" "double" 2).2.importFromJSON
      (ImportInput.parsed ((demoEngine.linkBlocks "a" "b" "double" 2).2.exportToJSON 5))
      6).1 = true ∧
    ((demoEngine.linkBlocks "a" "b" "double" 2).2.importFromJSON
      (ImportInput.parsed ((demoEngine.linkBlocks "a" "b" "double" 2).2.exportToJSON 5))
      6).2.blocks = (demoEngine.linkBlocks "a" "b" "double" 2).2.blocks :=
  C6_round_trip (demoEngine.linkBlocks "a" "b" "double" 2).2 5 6 (by decide)
